import Mathlib

/-!
# Transcription job lifecycle: server.js and client.js

A shallow embedding of the job registry, the three HTTP handlers, the transcript
formatter and the retention sweep of `src/server.js`, and of the polling state
machine of `src/client.js`.

Conventions of the embedding.

* The global object `transcriptionJobs` is the list of its own enumerable
  properties in `Object.keys` order. Keys of a JavaScript object are unique; the
  theorems that need it carry the hypothesis `(keys jobs).Nodup`.
* `transcriptionJobs[id]` first looks at the own properties and then at the
  properties every plain object inherits from `Object.prototype`.
* Dates are integers counting milliseconds.
* Every outside effect is explicit: a provider reply is an argument of the
  handler, the provider requests actually made are logged in the outcome, the
  clock readings are arguments, the file system is a value.
* Handlers are run one at a time (no interleaving of concurrent requests).
-/

namespace Ryan

/-! ## Data model -/

/-- One value of `transcriptionJobs`: the object literal stored by the upload
handler, plus the `error` property the status handler may add later. -/
structure Job where
  status : String
  filePath : String
  created : Int
  error : Option String
deriving DecidableEq, Repr

/-- The own enumerable properties of `transcriptionJobs`, in key order. -/
abbrev Registry := List (String × Job)

/-- `Object.keys(transcriptionJobs)`. -/
def keys (jobs : Registry) : List String := jobs.map Prod.fst

/-- Own property lookup. -/
def ownJob : Registry → String → Option Job
  | [], _ => none
  | (k, j) :: rest, id => if k = id then some j else ownJob rest id

/-- Names every plain object inherits from `Object.prototype`. The value behind
each of them is a function or an object, hence truthy. -/
def objectPrototypeNames : List String :=
  ["constructor", "__defineGetter__", "__defineSetter__", "hasOwnProperty",
   "__lookupGetter__", "__lookupSetter__", "isPrototypeOf", "propertyIsEnumerable",
   "toString", "valueOf", "__proto__", "toLocaleString"]

/-- What the expression `transcriptionJobs[id]` evaluates to. -/
inductive Property where
  | job (j : Job)
  | inherited
  | undefined
deriving DecidableEq, Repr

/-- The property read `transcriptionJobs[id]`: own properties shadow inherited
ones. -/
def getProperty (jobs : Registry) (id : String) : Property :=
  match ownJob jobs id with
  | some j => Property.job j
  | none => if id ∈ objectPrototypeNames then Property.inherited else Property.undefined

/-- The statement `delete transcriptionJobs[id]`. -/
def deleteJob (jobs : Registry) (id : String) : Registry :=
  jobs.filter (fun e => decide (e.1 ≠ id))

/-- Replace the value of an own property, keeping its place in key order. -/
def replaceJob : Registry → String → Job → Registry
  | [], _, _ => []
  | (k, j) :: rest, id, new =>
      if k = id then (k, new) :: rest else (k, j) :: replaceJob rest id new

/-- The assignment `transcriptionJobs[id] = job`. An existing own property keeps
its place, a new one is appended (an engine lists keys that are array indices
first; no statement below depends on where the new key stands). The name
`__proto__` is the exception: it is an accessor of `Object.prototype`, the
assignment swaps the prototype and creates no own property. -/
def assignJob (jobs : Registry) (id : String) (job : Job) : Registry :=
  if id = "__proto__" then jobs
  else match ownJob jobs id with
    | some _ => replaceJob jobs id job
    | none => jobs ++ [(id, job)]

/-! ## Numbers

A JavaScript number is an IEEE-754 double. A finite double is modelled by the
rational it denotes, and an arithmetic result by the rational rounded to the
nearest double, ties to even. NaN, the infinities and the sign of zero are left
out: JSON carries none of them, and a finite double divided by 1000 is finite. -/

/-- Exponent of the binade of a value, never below the exponent of the smallest
normal double. -/
def exponent (q : ℚ) : ℤ := max (Int.log 2 |q|) (-1022)

/-- Unit in the last place: the spacing of the doubles around a value (53
significant bits). -/
def ulp (q : ℚ) : ℚ := (2 : ℚ) ^ (exponent q - 52)

/-- Nearest integer, a tie going to the even one. -/
def roundHalfEven (x : ℚ) : ℤ :=
  if x - ⌊x⌋ < 1 / 2 then ⌊x⌋
  else if 1 / 2 < x - ⌊x⌋ then ⌊x⌋ + 1
  else if ⌊x⌋ % 2 = 0 then ⌊x⌋ else ⌊x⌋ + 1

/-- The double nearest to a rational. -/
def toDouble (q : ℚ) : ℚ := roundHalfEven (q / ulp q) * ulp q

/-- The operator `/` of JavaScript on finite doubles, for a divisor other than
zero: the exact quotient rounded to the nearest double. -/
def jsDiv (a b : ℚ) : ℚ := toDouble (a / b)

/-! ## Transcript formatter (server.js, processTranscript) -/

/-- One provider utterance; `start` and `end_` are in milliseconds. -/
structure Utterance where
  speaker : String
  text : String
  start : ℚ
  end_ : ℚ

/-- One element of the array returned by `processTranscript`. -/
structure Segment where
  speaker : String
  text : String
  start : ℚ
  end_ : ℚ

/-- The part of the provider polling reply the server reads. A missing or null
`utterances` field is `none`. -/
structure TranscriptData where
  status : String
  error : Option String
  utterances : Option (List Utterance)

/-- The arrow function passed to `utterances.map`. -/
def formatUtterance (utterance : Utterance) : Segment :=
  { speaker := "Speaker " ++ utterance.speaker
    text := utterance.text
    start := jsDiv utterance.start 1000
    end_ := jsDiv utterance.end_ 1000 }

/-- The function `processTranscript`. -/
def processTranscript (transcriptData : TranscriptData) : List Segment :=
  let utterances := transcriptData.utterances.getD []
  if utterances.length = 0 then []
  else utterances.map formatUtterance

/-! ## File system -/

/-- The part of the disk the sweep can see: the set of existing paths, and the
paths whose removal is refused by the operating system. -/
structure FileSystem where
  files : List String
  locked : List String
deriving DecidableEq, Repr

/-- The call `fs.existsSync(path)`; the empty path never exists. -/
def existsSync (fs : FileSystem) (path : String) : Bool :=
  decide (path ≠ "") && decide (path ∈ fs.files)

/-- The call `fs.unlinkSync(path)`: throws when the file is missing or cannot be
removed, otherwise the path is gone afterwards. -/
def unlinkSync (fs : FileSystem) (path : String) : Except String FileSystem :=
  if path ∈ fs.locked then Except.error "EPERM: operation not permitted, unlink"
  else if existsSync fs path = false then
    Except.error "ENOENT: no such file or directory, unlink"
  else Except.ok { fs with files := fs.files.filter (fun p => decide (p ≠ path)) }

/-! ## Retention sweep (server.js, cleanupOldFiles) -/

/-- State threaded through `Object.keys(transcriptionJobs).forEach`: the registry,
the disk, and the exception that aborted the loop, if any. -/
structure Sweep where
  jobs : Registry
  fs : FileSystem
  raised : Option String
deriving DecidableEq, Repr

/-- One call of the `forEach` callback. Nothing runs once an exception has left
the loop. -/
def sweepJob (oneHourAgo : Int) (s : Sweep) (id : String) : Sweep :=
  match s.raised with
  | some _ => s
  | none =>
    match getProperty s.jobs id with
    | Property.undefined =>
        { s with raised := some "TypeError: Cannot read properties of undefined" }
    | Property.inherited => s
    | Property.job job =>
        if job.created < oneHourAgo then
          if job.filePath ≠ "" ∧ existsSync s.fs job.filePath = true then
            match unlinkSync s.fs job.filePath with
            | Except.error e => { s with raised := some e }
            | Except.ok fs1 => { jobs := deleteJob s.jobs id, fs := fs1, raised := none }
          else { s with jobs := deleteJob s.jobs id }
        else s

/-- The function `cleanupOldFiles`; `now` is the value of `Date.now()`. Its only
call site is the end of a successful upload: there is no timer, whatever the
comment at that call says about cleaning up periodically. -/
def cleanupOldFiles (now : Int) (jobs : Registry) (fs : FileSystem) : Sweep :=
  let oneHourAgo := now - 60 * 60 * 1000
  (keys jobs).foldl (sweepJob oneHourAgo) { jobs := jobs, fs := fs, raised := none }

/-! ## HTTP handlers (server.js) -/

/-- What an awaited `fetch` (and the reading of its body) gives: a thrown Error
with its message, or a response with its `ok` flag, its status code and its
parsed body. -/
inductive Fetch (β : Type) where
  | failed (message : String)
  | resolved (ok : Bool) (status : Nat) (data : β)

/-- Body of the provider reply to the upload call. -/
structure UploadData where
  upload_url : String

/-- Body of the provider reply to the transcription request. -/
structure TranscriptionData where
  id : String

/-- The part of the provider polling reply the status handler reads. -/
structure StatusData where
  status : String
  error : Option String

/-- Requests sent to the provider, in order. -/
inductive ProviderCall where
  | upload (filePath : String)
  | transcript (audioUrl : String)
  | poll (id : String)
deriving DecidableEq, Repr

/-- JSON bodies the upload and status handlers answer with. -/
inductive Body where
  | error (message : String)
  | transcriptionId (id : String)
  | status (status : String) (error : Option String)
deriving DecidableEq, Repr

/-- JSON bodies the transcript handler answers with. -/
inductive TranscriptBody where
  | error (message : String)
  | transcript (segments : List Segment)

/-- Result of one run of a handler: the HTTP answer, the registry afterwards and
the provider requests made. -/
structure Outcome (β : Type) where
  code : Nat
  body : β
  jobs : Registry
  calls : List ProviderCall

/-- The object `req.file` that the multipart middleware leaves for the handler. -/
structure UploadedFile where
  path : String
  mimetype : String
  size : Nat
deriving DecidableEq, Repr

/-- Result of the upload handler: as `Outcome`, plus the disk afterwards and the
exception `cleanupOldFiles` may raise once the answer has been sent (the `catch`
block can no longer change the answer then). -/
structure UploadOutcome where
  code : Nat
  body : Body
  jobs : Registry
  fs : FileSystem
  calls : List ProviderCall
  raised : Option String
deriving DecidableEq, Repr

/-- The handler of `POST /upload`. `created` is the value of `new Date()` stored in
the job, `sweepAt` the later `Date.now()` read by `cleanupOldFiles`. -/
def uploadHandler (file : Option UploadedFile) (uploadResponse : Fetch UploadData)
    (transcriptionResponse : Fetch TranscriptionData) (created sweepAt : Int)
    (jobs : Registry) (fs : FileSystem) : UploadOutcome :=
  match file with
  | none => ⟨400, Body.error "No video file uploaded", jobs, fs, [], none⟩
  | some reqFile =>
    let filePath := reqFile.path
    match uploadResponse with
    | Fetch.failed message =>
        ⟨500, Body.error message, jobs, fs, [ProviderCall.upload filePath], none⟩
    | Fetch.resolved ok status uploadData =>
      if ok = false then
        ⟨500, Body.error ("Upload failed with status: " ++ toString status), jobs, fs,
          [ProviderCall.upload filePath], none⟩
      else
        let audioUrl := uploadData.upload_url
        let calls := [ProviderCall.upload filePath, ProviderCall.transcript audioUrl]
        match transcriptionResponse with
        | Fetch.failed message => ⟨500, Body.error message, jobs, fs, calls, none⟩
        | Fetch.resolved ok2 status2 transcriptionData =>
          if ok2 = false then
            ⟨500, Body.error ("Transcription request failed with status: " ++ toString status2),
              jobs, fs, calls, none⟩
          else
            let transcriptionId := transcriptionData.id
            let jobs1 := assignJob jobs transcriptionId
              { status := "queued", filePath := filePath, created := created, error := none }
            let s := cleanupOldFiles sweepAt jobs1 fs
            ⟨200, Body.transcriptionId transcriptionId, s.jobs, s.fs, calls, s.raised⟩

/-- The two assignments of the status handler on a stored job. -/
def recordStatus (job : Job) (statusData : StatusData) : Job :=
  let job1 := { job with status := statusData.status }
  if statusData.status = "error" then { job1 with error := statusData.error } else job1

/-- The handler of `GET /status/:id`. When the property read hits an inherited
value, the two assignments land on that value and not on the registry. -/
def statusHandler (transcriptionId : String) (statusResponse : Fetch StatusData)
    (jobs : Registry) : Outcome Body :=
  match getProperty jobs transcriptionId with
  | Property.undefined => ⟨404, Body.error "Transcription job not found", jobs, []⟩
  | found =>
    let calls := [ProviderCall.poll transcriptionId]
    match statusResponse with
    | Fetch.failed message => ⟨500, Body.error message, jobs, calls⟩
    | Fetch.resolved ok status statusData =>
      if ok = false then
        ⟨500, Body.error ("Status check failed with status: " ++ toString status), jobs, calls⟩
      else
        let jobs1 := match found with
          | Property.job job => replaceJob jobs transcriptionId (recordStatus job statusData)
          | _ => jobs
        ⟨200, Body.status statusData.status statusData.error, jobs1, calls⟩

/-- The handler of `GET /transcript/:id`. -/
def transcriptHandler (transcriptionId : String)
    (transcriptResponse : Fetch TranscriptData) (jobs : Registry) :
    Outcome TranscriptBody :=
  match getProperty jobs transcriptionId with
  | Property.undefined => ⟨404, TranscriptBody.error "Transcription job not found", jobs, []⟩
  | _ =>
    let calls := [ProviderCall.poll transcriptionId]
    match transcriptResponse with
    | Fetch.failed message => ⟨500, TranscriptBody.error message, jobs, calls⟩
    | Fetch.resolved ok status transcriptData =>
      if ok = false then
        ⟨500, TranscriptBody.error
          ("Transcript retrieval failed with status: " ++ toString status), jobs, calls⟩
      else if transcriptData.status ≠ "completed" then
        ⟨400, TranscriptBody.error "Transcription is not yet complete", jobs, calls⟩
      else
        ⟨200, TranscriptBody.transcript (processTranscript transcriptData), jobs, calls⟩

/-- Stored status of a job after a run of status checks made one after the
other, one entry per check. -/
def storedStatuses (transcriptionId : String) :
    Registry → List (Fetch StatusData) → List (Option String)
  | _, [] => []
  | jobs, r :: rest =>
      let jobs1 := (statusHandler transcriptionId r jobs).jobs
      (ownJob jobs1 transcriptionId).map Job.status :: storedStatuses transcriptionId jobs1 rest

/-! ## Polling client (client.js) -/

/-- The `File` object the browser hands to the page. -/
structure ClientFile where
  name : String
  type : String
  size : Nat
deriving DecidableEq, Repr

/-- The three variables of the page script and the parts of the page it writes.
`pollingInterval` tells whether the interval timer is running, `widthLog` lists
the arguments of all calls of `updateProgress` (oldest first) and
`transcriptFetches` counts the calls of `getTranscript`. -/
structure Client where
  selectedFile : Option ClientFile
  transcriptionId : Option String
  pollingInterval : Bool
  submitDisabled : Bool
  fileName : String
  errorText : String
  errorDisplayed : Bool
  progressDisplayed : Bool
  progressWidth : Nat
  progressText : String
  widthLog : List Nat
  transcriptFetches : Nat
deriving DecidableEq, Repr

/-- The function `showError`. -/
def showError (c : Client) (message : String) : Client :=
  { c with errorText := message, errorDisplayed := true }

/-- The function `updateProgress`. -/
def updateProgress (c : Client) (value : Nat) : Client :=
  { c with progressWidth := value, widthLog := c.widthLog ++ [value] }

/-- The function `handleFileSelection` (the video preview is left out). -/
def handleFileSelection (c : Client) (file : ClientFile) : Client :=
  if List.isPrefixOf "video/".data file.type.data = false then
    showError c "Please select a valid video file"
  else if file.size > 100 * 1024 * 1024 then
    showError c "File size exceeds the 100MB limit"
  else
    { c with selectedFile := some file, fileName := file.name, errorDisplayed := false }

/-- The expression `errorData.error || fallback`. -/
def orDefault (error : Option String) (fallback : String) : String :=
  match error with
  | some message => if message = "" then fallback else message
  | none => fallback

/-- The `catch` block shared by `startTranscription` and `getTranscript`. -/
def catchBlock (c : Client) (message : String) : Client :=
  { showError c ("An error occurred: " ++ message) with
    submitDisabled := false, progressDisplayed := false }

/-- Body of the reply of `POST /upload` as the page reads it. -/
structure ClientUploadData where
  error : Option String
  transcriptionId : String

/-- The function `startTranscription`, given what the upload request gives. -/
def startTranscription (c : Client) (uploadResponse : Fetch ClientUploadData) : Client :=
  let c1 := { c with submitDisabled := true, progressDisplayed := true, progressWidth := 0,
                     progressText := "Uploading video..." }
  match uploadResponse with
  | Fetch.failed message => catchBlock c1 message
  | Fetch.resolved ok _ uploadData =>
    if ok = false then catchBlock c1 (orDefault uploadData.error "Failed to upload video")
    else
      let c2 := { c1 with transcriptionId := some uploadData.transcriptionId }
      let c3 := updateProgress c2 30
      { c3 with progressText := "Transcribing video...", pollingInterval := true }

/-- The function `checkTranscriptionStatus`, given what the status request gives.
Its `catch` block also stops the timer. -/
def checkTranscriptionStatus (c : Client) (statusResponse : Fetch StatusData) : Client :=
  match statusResponse with
  | Fetch.failed message => catchBlock { c with pollingInterval := false } message
  | Fetch.resolved ok _ statusData =>
    if ok = false then
      catchBlock { c with pollingInterval := false }
        (orDefault statusData.error "Failed to check transcription status")
    else if statusData.status = "queued" then
      { updateProgress c 40 with progressText := "Queued for transcription..." }
    else if statusData.status = "processing" then
      { updateProgress c 60 with progressText := "Processing transcription..." }
    else if statusData.status = "completed" then
      let c1 := updateProgress { c with pollingInterval := false } 100
      { c1 with progressText := "Transcription complete!",
                transcriptFetches := c1.transcriptFetches + 1 }
    else if statusData.status = "error" then
      catchBlock { c with pollingInterval := false } (orDefault statusData.error "Transcription failed")
    else
      { updateProgress c 50 with progressText := "Processing..." }

/-- The interval timer: each tick runs `checkTranscriptionStatus` on the next
reply, and no tick comes once the timer has been cleared. -/
def poll (c : Client) (replies : List (Fetch StatusData)) : Client :=
  replies.foldl (fun c r => if c.pollingInterval then checkTranscriptionStatus c r else c) c

/-- A successful status reply carrying the given status. -/
def statusReply (status : String) : Fetch StatusData :=
  Fetch.resolved true 200 { status := status, error := none }

/-- A successful status reply with the given status, whatever its code and its
error field. -/
def okReply (status : String) (x : Nat × Option String) : Fetch StatusData :=
  Fetch.resolved true x.1 { status := status, error := x.2 }

/-! ## Notions used by the statements -/

/-- The status `t` is `s` itself or a later stop on the path queued, processing,
completed, with error reachable from queued and processing. Nothing follows
completed or error. -/
def forward (s t : String) : Prop :=
  s = t ∨
  (s = "queued" ∧ (t = "processing" ∨ t = "completed" ∨ t = "error")) ∨
  (s = "processing" ∧ (t = "completed" ∨ t = "error"))

instance (s t : String) : Decidable (forward s t) := by
  unfold forward; infer_instance

/-- The job is older than one hour at time `now`. -/
def expired (now : Int) (job : Job) : Prop := now - job.created > 60 * 60 * 1000

instance (now : Int) (job : Job) : Decidable (expired now job) := by
  unfold expired; infer_instance

/-- The removal of the file of this job would be attempted and refused. -/
def blocked (fs : FileSystem) (job : Job) : Prop :=
  existsSync fs job.filePath = true ∧ job.filePath ∈ fs.locked

instance (fs : FileSystem) (job : Job) : Decidable (blocked fs job) := by
  unfold blocked; infer_instance

/-- Invariant of the registry: its keys are unique and no two jobs name the same
file. It holds of the empty registry and every handler keeps it, as long as each
upload arrives with a file path no job uses yet (`invariant_statusHandler`,
`invariant_uploadHandler`, `invariant_cleanupOldFiles`). -/
def Invariant (jobs : Registry) : Prop :=
  (keys jobs).Nodup ∧
  ∀ k1 k2 j1 j2, ownJob jobs k1 = some j1 → ownJob jobs k2 = some j2 →
    j1.filePath = j2.filePath → k1 = k2

/-- The sweep written as a recursion over the entries of the registry instead of
a loop over its keys. Under unique keys it computes what `cleanupOldFiles`
computes (`cleanupOldFiles_eq_sweepEntries`). -/
def sweepEntries (oneHourAgo : Int) : Registry → FileSystem → Sweep
  | [], fs => { jobs := [], fs := fs, raised := none }
  | (k, job) :: rest, fs =>
    if job.created < oneHourAgo then
      if job.filePath ≠ "" ∧ existsSync fs job.filePath = true then
        match unlinkSync fs job.filePath with
        | Except.error e => { jobs := (k, job) :: rest, fs := fs, raised := some e }
        | Except.ok fs1 => sweepEntries oneHourAgo rest fs1
      else sweepEntries oneHourAgo rest fs
    else
      let s := sweepEntries oneHourAgo rest fs
      { jobs := (k, job) :: s.jobs, fs := s.fs, raised := s.raised }

/-- What the stored status has to be after each check of a run that starts from
the stored status `s0`: the status a successful reply reports, and the status of
before when the request fails or is refused. -/
def expectedStatuses (s0 : String) : List (Fetch StatusData) → List String
  | [] => []
  | Fetch.resolved true _ statusData :: rest =>
      statusData.status :: expectedStatuses statusData.status rest
  | _ :: rest => s0 :: expectedStatuses s0 rest

/-- The statuses the provider reported in the successful replies of a run. -/
def reported : List (Fetch StatusData) → List String
  | [] => []
  | Fetch.resolved true _ statusData :: rest => statusData.status :: reported rest
  | _ :: rest => reported rest

/-! ## Theorems -/

/-! ### Double arithmetic -/

theorem ulp_pos (q : ℚ) : 0 < ulp q := by
  unfold ulp
  positivity

theorem roundHalfEven_intCast (m : ℤ) : roundHalfEven (m : ℚ) = m := by
  simp [roundHalfEven]

theorem abs_roundHalfEven_sub_le (x : ℚ) : |(roundHalfEven x : ℚ) - x| ≤ 1 / 2 := by
  have h1 : (⌊x⌋ : ℚ) ≤ x := Int.floor_le x
  have h2 : x < ⌊x⌋ + 1 := Int.lt_floor_add_one x
  unfold roundHalfEven
  rw [abs_le]
  split_ifs with a b c
  · constructor <;> linarith
  · push_cast; constructor <;> linarith
  · constructor <;> linarith
  · push_cast; constructor <;> linarith

theorem abs_toDouble_sub_le (q : ℚ) : |toDouble q - q| ≤ ulp q / 2 := by
  have hu := ulp_pos q
  have h := abs_roundHalfEven_sub_le (q / ulp q)
  have e : toDouble q - q = ((roundHalfEven (q / ulp q) : ℚ) - q / ulp q) * ulp q := by
    unfold toDouble
    field_simp
  rw [e, abs_mul, abs_of_pos hu]
  calc |(roundHalfEven (q / ulp q) : ℚ) - q / ulp q| * ulp q ≤ 1 / 2 * ulp q :=
        mul_le_mul_of_nonneg_right h hu.le
    _ = ulp q / 2 := by ring

theorem toDouble_exact (q : ℚ) (h : ∃ m : ℤ, q = m * ulp q) : toDouble q = q := by
  obtain ⟨m, hm⟩ := h
  have hu := ulp_pos q
  have e : q / ulp q = (m : ℚ) := by
    rw [div_eq_iff hu.ne']
    exact hm
  unfold toDouble
  rw [e, roundHalfEven_intCast]
  exact hm.symm

theorem exponent_eq {q : ℚ} {e : ℤ} (h1 : (2 : ℚ) ^ e ≤ |q|) (h2 : |q| < (2 : ℚ) ^ (e + 1))
    (h3 : -1022 ≤ e) : exponent q = e := by
  have hpos : 0 < |q| := lt_of_lt_of_le (by positivity) h1
  have a : e ≤ Int.log 2 |q| :=
    (Int.zpow_le_iff_le_log (by norm_num) hpos).mp (by exact_mod_cast h1)
  have b : Int.log 2 |q| < e + 1 :=
    (Int.lt_zpow_iff_log_lt (by norm_num) hpos).mp (by exact_mod_cast h2)
  unfold exponent
  omega

theorem jsDiv_one_thousand : jsDiv 1 1000 = 1152921504606847 / 2 ^ 60 := by
  have he : exponent (1 / 1000 : ℚ) = -10 := by
    apply exponent_eq <;> norm_num [abs_of_pos]
  have hu : ulp (1 / 1000 : ℚ) = 1 / 2 ^ 62 := by
    unfold ulp
    rw [he]
    norm_num
  have hf : ⌊(1 / 1000 : ℚ) / (1 / 2 ^ 62)⌋ = 4611686018427387 := by
    rw [Int.floor_eq_iff]
    constructor <;> norm_num
  have hr : roundHalfEven ((1 / 1000 : ℚ) / (1 / 2 ^ 62)) = 4611686018427388 := by
    unfold roundHalfEven
    rw [hf]
    norm_num
  unfold jsDiv toDouble
  rw [hu, hr]
  norm_num

theorem jsDiv_zero : jsDiv 0 1000 = 0 := by
  unfold jsDiv
  rw [toDouble_exact _ ⟨0, by norm_num⟩]
  norm_num

theorem jsDiv_1500 : jsDiv 1500 1000 = 3 / 2 := by
  have he : exponent (1500 / 1000 : ℚ) = 0 := by
    apply exponent_eq <;> norm_num [abs_of_pos]
  unfold jsDiv
  rw [toDouble_exact _ ⟨3 * 2 ^ 51, by unfold ulp; rw [he]; norm_num⟩]
  norm_num

theorem jsDiv_5000 : jsDiv 5000 1000 = 5 := by
  have he : exponent (5000 / 1000 : ℚ) = 2 := by
    apply exponent_eq <;> norm_num [abs_of_pos]
  unfold jsDiv
  rw [toDouble_exact _ ⟨5 * 2 ^ 50, by unfold ulp; rw [he]; norm_num⟩]
  norm_num

theorem jsDiv_9000 : jsDiv 9000 1000 = 9 := by
  have he : exponent (9000 / 1000 : ℚ) = 3 := by
    apply exponent_eq <;> norm_num [abs_of_pos]
  unfold jsDiv
  rw [toDouble_exact _ ⟨9 * 2 ^ 49, by unfold ulp; rw [he]; norm_num⟩]
  norm_num

/-! ### Transcript formatter -/

/-- Counterexample to C1 as stated: an utterance that starts at 1 ms gets the
start 1152921504606847 / 2^60, the double nearest to 1/1000, and not 1/1000. -/
theorem processTranscript_rounds :
    processTranscript
      { status := "completed", error := none, utterances := some [⟨"A", "hi", 1, 1500⟩] }
      = [⟨"Speaker A", "hi", 1152921504606847 / 2 ^ 60, 3 / 2⟩] ∧
    (1152921504606847 / 2 ^ 60 : ℚ) ≠ 1 / 1000 := by
  refine ⟨?_, by norm_num⟩
  simp [processTranscript, formatUtterance, jsDiv_one_thousand, jsDiv_1500]

/-- C1, as the code has it. For a reply with N utterances (N = 0 and a missing
utterances field included) `processTranscript` returns exactly N segments, and
the i-th segment is built from the i-th utterance alone: label "Speaker "
followed by the speaker, the text unchanged, start and end the double quotient
of the utterance start and end by 1000; nothing is reordered or merged and no
rounding is applied beyond that of the division. The double quotient lies within
half a unit in the last place of the exact quotient, and it is the exact quotient
whenever the exact quotient is itself a double. -/
theorem processTranscript_pointwise (transcriptData : TranscriptData) :
    (processTranscript transcriptData).length = (transcriptData.utterances.getD []).length ∧
    (∀ i : Nat, (processTranscript transcriptData)[i]? =
      ((transcriptData.utterances.getD [])[i]?).map (fun u =>
        { speaker := "Speaker " ++ u.speaker, text := u.text,
          start := jsDiv u.start 1000, end_ := jsDiv u.end_ 1000 })) ∧
    (∀ a : ℚ, |jsDiv a 1000 - a / 1000| ≤ ulp (a / 1000) / 2) ∧
    (∀ a : ℚ, (∃ m : ℤ, a / 1000 = m * ulp (a / 1000)) → jsDiv a 1000 = a / 1000) := by
  refine ⟨?_, ?_, fun a => abs_toDouble_sub_le _, fun a h => toDouble_exact _ h⟩
  · unfold processTranscript
    cases h : transcriptData.utterances.getD [] with
    | nil => simp
    | cons u us => simp
  · intro i
    unfold processTranscript
    cases h : transcriptData.utterances.getD [] with
    | nil => simp
    | cons u us =>
      simp only [List.length_cons, Nat.succ_ne_zero, if_false, List.getElem?_map]
      rfl

/-- Witness of C1: 1500 ms is 1.5 s exactly, since 1.5 is a double. -/
theorem processTranscript_pointwise_witness :
    (∃ m : ℤ, (1500 : ℚ) / 1000 = m * ulp (1500 / 1000)) ∧ jsDiv 1500 1000 = 1500 / 1000 :=
  have he : exponent (1500 / 1000 : ℚ) = 0 := by
    apply exponent_eq <;> norm_num [abs_of_pos]
  have hm : ∃ m : ℤ, (1500 : ℚ) / 1000 = m * ulp (1500 / 1000) :=
    ⟨3 * 2 ^ 51, by unfold ulp; rw [he]; norm_num⟩
  ⟨hm, (processTranscript_pointwise ⟨"completed", none, none⟩).2.2.2 1500 hm⟩

/-- Scenario C of the specification: every quotient there is a double. -/
theorem processTranscript_scenarioC :
    processTranscript
      { status := "completed", error := none,
        utterances := some [⟨"A", "hi", 0, 5000⟩, ⟨"B", "yo", 5000, 9000⟩] }
      = [⟨"Speaker A", "hi", 0, 5⟩, ⟨"Speaker B", "yo", 5, 9⟩] := by
  simp [processTranscript, formatUtterance, jsDiv_zero, jsDiv_5000, jsDiv_9000]

/-! ### Registry lemmas -/

theorem ownJob_eq_none_iff (jobs : Registry) (id : String) :
    ownJob jobs id = none ↔ id ∉ keys jobs := by
  induction jobs with
  | nil => simp [ownJob, keys]
  | cons e rest ih =>
    obtain ⟨k, j⟩ := e
    by_cases h : k = id
    · simp [ownJob, keys, h]
    · have h2 : ¬ id = k := fun h3 => h h3.symm
      simp only [ownJob, h, if_false, ih, keys, List.map_cons, List.mem_cons, h2, false_or]

theorem ownJob_mem {jobs : Registry} {id : String} {j : Job} (h : ownJob jobs id = some j) :
    (id, j) ∈ jobs := by
  induction jobs with
  | nil => simp [ownJob] at h
  | cons e rest ih =>
    obtain ⟨k, j2⟩ := e
    by_cases hk : k = id
    · simp [ownJob, hk] at h
      simp [hk, h]
    · simp only [ownJob, hk, if_false] at h
      exact List.mem_cons_of_mem _ (ih h)

theorem mem_keys_of_mem {jobs : Registry} {id : String} {j : Job} (h : (id, j) ∈ jobs) :
    id ∈ keys jobs := by
  unfold keys
  exact List.mem_map.mpr ⟨(id, j), h, rfl⟩

theorem ownJob_of_mem {jobs : Registry} {id : String} {j : Job} (hnd : (keys jobs).Nodup)
    (h : (id, j) ∈ jobs) : ownJob jobs id = some j := by
  induction jobs with
  | nil => simp at h
  | cons e rest ih =>
    obtain ⟨k, j2⟩ := e
    simp only [keys, List.map_cons, List.nodup_cons] at hnd
    rcases List.mem_cons.mp h with h1 | h1
    · injection h1 with h2 h3
      simp [ownJob, h2, h3]
    · have hk : k ≠ id := by
        intro hk
        exact hnd.1 (hk ▸ mem_keys_of_mem h1)
      simp only [ownJob, hk, if_false]
      exact ih hnd.2 h1

theorem ownJob_replaceJob_same (jobs : Registry) (id : String) (j new : Job)
    (h : ownJob jobs id = some j) : ownJob (replaceJob jobs id new) id = some new := by
  induction jobs with
  | nil => simp [ownJob] at h
  | cons e rest ih =>
    obtain ⟨k, j2⟩ := e
    by_cases hk : k = id
    · simp [replaceJob, ownJob, hk]
    · simp only [ownJob, hk, if_false] at h
      simp [replaceJob, ownJob, hk, ih h]

theorem ownJob_replaceJob_other (jobs : Registry) (id k : String) (new : Job) (hk : k ≠ id) :
    ownJob (replaceJob jobs id new) k = ownJob jobs k := by
  induction jobs with
  | nil => simp [replaceJob]
  | cons e rest ih =>
    obtain ⟨k2, j2⟩ := e
    by_cases h2 : k2 = id
    · have h3 : ¬ k2 = k := fun h3 => hk (h3 ▸ h2)
      have h4 : ¬ id = k := fun h4 => hk h4.symm
      simp [replaceJob, ownJob, h2, h4]
    · simp only [replaceJob, h2, if_false, ownJob, ih]

theorem keys_replaceJob (jobs : Registry) (id : String) (new : Job) :
    keys (replaceJob jobs id new) = keys jobs := by
  induction jobs with
  | nil => simp [replaceJob]
  | cons e rest ih =>
    obtain ⟨k2, j2⟩ := e
    by_cases h2 : k2 = id
    · simp [replaceJob, keys, h2]
    · simp only [keys] at ih
      simp [replaceJob, keys, h2, ih]

/-! ### Status and transcript handlers -/

theorem getProperty_of_ownJob {jobs : Registry} {id : String} {j : Job}
    (h : ownJob jobs id = some j) : getProperty jobs id = Property.job j := by
  simp [getProperty, h]

theorem statusHandler_resolved_job {jobs : Registry} {id : String} {j : Job}
    (h : ownJob jobs id = some j) (code : Nat) (statusData : StatusData) :
    statusHandler id (Fetch.resolved true code statusData) jobs =
      ⟨200, Body.status statusData.status statusData.error,
        replaceJob jobs id (recordStatus j statusData), [ProviderCall.poll id]⟩ := by
  simp [statusHandler, getProperty_of_ownJob h]

theorem statusHandler_refused_job {jobs : Registry} {id : String} {j : Job}
    (h : ownJob jobs id = some j) (code : Nat) (statusData : StatusData) :
    statusHandler id (Fetch.resolved false code statusData) jobs =
      ⟨500, Body.error ("Status check failed with status: " ++ toString code), jobs,
        [ProviderCall.poll id]⟩ := by
  simp [statusHandler, getProperty_of_ownJob h]

theorem statusHandler_failed_job {jobs : Registry} {id : String} {j : Job}
    (h : ownJob jobs id = some j) (message : String) :
    statusHandler id (Fetch.failed message) jobs =
      ⟨500, Body.error message, jobs, [ProviderCall.poll id]⟩ := by
  simp [statusHandler, getProperty_of_ownJob h]

/-- C5. For a registry holding job `id` and a successful provider reply with
status `s` and error text `e`, the status handler answers 200 with `s`, stores `s`
as the status of the job (and `e` as its error when `s` is error), keeps its file
path and creation time, and leaves every other job and the key order alone. When
the provider reply is not a success (a refused response or a failed request) the
answer is 500 and the registry is unchanged. -/
theorem statusHandler_writes_reported_status (jobs : Registry) (id : String) (j : Job)
    (h : ownJob jobs id = some j) :
    (∀ (code : Nat) (s : String) (e : Option String),
      (statusHandler id (Fetch.resolved true code ⟨s, e⟩) jobs).code = 200 ∧
      (statusHandler id (Fetch.resolved true code ⟨s, e⟩) jobs).body = Body.status s e ∧
      ownJob (statusHandler id (Fetch.resolved true code ⟨s, e⟩) jobs).jobs id =
        some { status := s, filePath := j.filePath, created := j.created,
               error := if s = "error" then e else j.error } ∧
      (∀ k, k ≠ id →
        ownJob (statusHandler id (Fetch.resolved true code ⟨s, e⟩) jobs).jobs k = ownJob jobs k) ∧
      keys (statusHandler id (Fetch.resolved true code ⟨s, e⟩) jobs).jobs = keys jobs) ∧
    (∀ (code : Nat) (statusData : StatusData),
      (statusHandler id (Fetch.resolved false code statusData) jobs).code = 500 ∧
      (statusHandler id (Fetch.resolved false code statusData) jobs).jobs = jobs) ∧
    (∀ message : String,
      (statusHandler id (Fetch.failed message) jobs).code = 500 ∧
      (statusHandler id (Fetch.failed message) jobs).jobs = jobs) := by
  refine ⟨fun code s e => ?_, fun code statusData => ?_, fun message => ?_⟩
  · rw [statusHandler_resolved_job h]
    refine ⟨rfl, rfl, ?_, fun k hk => ownJob_replaceJob_other _ _ _ _ hk, keys_replaceJob _ _ _⟩
    rw [ownJob_replaceJob_same jobs id j _ h]
    by_cases hs : s = "error" <;> simp [recordStatus, hs]
  · rw [statusHandler_refused_job h]
    exact ⟨rfl, rfl⟩
  · rw [statusHandler_failed_job h]
    exact ⟨rfl, rfl⟩

/-- Witness of C5: a queued job, the provider reports an error. -/
theorem statusHandler_writes_reported_status_witness :
    ownJob [("j1", ⟨"queued", "/uploads/a.mp4", 0, none⟩)] "j1"
      = some ⟨"queued", "/uploads/a.mp4", 0, none⟩ ∧
    ownJob (statusHandler "j1" (Fetch.resolved true 200 ⟨"error", some "bad audio"⟩)
      [("j1", ⟨"queued", "/uploads/a.mp4", 0, none⟩)]).jobs "j1"
      = some ⟨"error", "/uploads/a.mp4", 0, some "bad audio"⟩ :=
  ⟨by decide,
   ((statusHandler_writes_reported_status [("j1", ⟨"queued", "/uploads/a.mp4", 0, none⟩)] "j1"
      ⟨"queued", "/uploads/a.mp4", 0, none⟩ (by decide)).1 200 "error" (some "bad audio")).2.2.1⟩

theorem forward_refl (s : String) : forward s s := Or.inl rfl

theorem recordStatus_status (j : Job) (statusData : StatusData) :
    (recordStatus j statusData).status = statusData.status := by
  unfold recordStatus
  split <;> rfl

/-- C3, as the code has it. The status handler overwrites the stored status with
whatever the provider reports: after each check of a run the stored status is
the status the provider reported when the check succeeded, and the status of
before when the request failed or was refused. So the stored status moves
forward (queued, processing, completed, or error from queued or processing)
whenever the successful provider reports move forward from the stored status. -/
theorem storedStatuses_forward (id : String) (replies : List (Fetch StatusData)) :
    ∀ (jobs : Registry) (j : Job), ownJob jobs id = some j →
      storedStatuses id jobs replies = (expectedStatuses j.status replies).map some ∧
      (List.Chain forward j.status (reported replies) →
        List.Chain forward j.status (expectedStatuses j.status replies)) := by
  induction replies with
  | nil => intro jobs j _; exact ⟨rfl, fun _ => List.Chain.nil⟩
  | cons r rest ih =>
    intro jobs j h
    cases r with
    | failed message =>
      obtain ⟨h1, h2⟩ := ih jobs j h
      refine ⟨?_, fun hfw => ?_⟩
      · simp [storedStatuses, expectedStatuses, statusHandler_failed_job h, h, h1]
      · exact List.Chain.cons (forward_refl _) (h2 (by simpa [reported] using hfw))
    | resolved ok code statusData =>
      cases ok with
      | false =>
        obtain ⟨h1, h2⟩ := ih jobs j h
        refine ⟨?_, fun hfw => ?_⟩
        · simp [storedStatuses, expectedStatuses, statusHandler_refused_job h, h, h1]
        · exact List.Chain.cons (forward_refl _) (h2 (by simpa [reported] using hfw))
      | true =>
        have hj := ownJob_replaceJob_same jobs id j (recordStatus j statusData) h
        obtain ⟨h1, h2⟩ := ih _ _ hj
        rw [recordStatus_status] at h1 h2
        refine ⟨?_, fun hfw => ?_⟩
        · simp [storedStatuses, expectedStatuses, statusHandler_resolved_job h, hj, h1,
            recordStatus_status]
        · simp only [reported, List.chain_cons] at hfw
          exact List.Chain.cons hfw.1 (h2 hfw.2)

/-- Witness of C3: queued job, the provider reports processing, fails once, then
reports completed; the stored status is processing, processing, completed. -/
theorem storedStatuses_forward_witness :
    storedStatuses "j1" [("j1", ⟨"queued", "/uploads/a.mp4", 0, none⟩)]
      [statusReply "processing", Fetch.failed "socket hang up", statusReply "completed"]
      = [some "processing", some "processing", some "completed"] ∧
    List.Chain forward "queued" ["processing", "processing", "completed"] :=
  have h := storedStatuses_forward "j1"
    [statusReply "processing", Fetch.failed "socket hang up", statusReply "completed"]
    [("j1", ⟨"queued", "/uploads/a.mp4", 0, none⟩)] ⟨"queued", "/uploads/a.mp4", 0, none⟩
    (by decide)
  ⟨h.1, h.2 (by simp [reported, statusReply, forward])⟩

/-- Counterexample to C3 as stated: a job stored as completed is set back to
queued by one status check when the provider reports queued. -/
theorem storedStatuses_not_forward :
    ¬ ∀ (id : String) (replies : List (Fetch StatusData)) (jobs : Registry) (j : Job),
      ownJob jobs id = some j →
      ∃ ss : List String, storedStatuses id jobs replies = ss.map some ∧
        List.Chain forward j.status ss := by
  intro hall
  obtain ⟨ss, h1, h2⟩ := hall "j1" [statusReply "queued"]
    [("j1", ⟨"completed", "/uploads/a.mp4", 0, none⟩)] ⟨"completed", "/uploads/a.mp4", 0, none⟩
    (by decide)
  have h3 : storedStatuses "j1" [("j1", ⟨"completed", "/uploads/a.mp4", 0, none⟩)]
      [statusReply "queued"] = [some "queued"] := by decide
  rw [h3] at h1
  cases ss with
  | nil => simp at h1
  | cons s rest =>
    simp only [List.map_cons, List.cons.injEq, Option.some.injEq] at h1
    have h4 : forward "completed" s := (List.chain_cons.mp h2).1
    rw [← h1.1] at h4
    revert h4
    decide

/-- An id that is neither a key of the registry nor a name inherited from
`Object.prototype` is answered 404 by the status handler, whatever the provider
would say, without a provider request and without a change of the registry. -/
theorem statusHandler_unknown_id (jobs : Registry) (id : String) (r : Fetch StatusData)
    (h : id ∉ keys jobs) (hp : id ∉ objectPrototypeNames) :
    statusHandler id r jobs = ⟨404, Body.error "Transcription job not found", jobs, []⟩ := by
  have h1 : getProperty jobs id = Property.undefined := by
    simp [getProperty, (ownJob_eq_none_iff jobs id).mpr h, hp]
  simp [statusHandler, h1]

/-- The same for the transcript handler. -/
theorem transcriptHandler_unknown_id (jobs : Registry)
    (id : String) (r : Fetch TranscriptData) (h : id ∉ keys jobs)
    (hp : id ∉ objectPrototypeNames) :
    (transcriptHandler id r jobs).code = 404 ∧ (transcriptHandler id r jobs).calls = [] ∧
    (transcriptHandler id r jobs).jobs = jobs := by
  have h1 : getProperty jobs id = Property.undefined := by
    simp [getProperty, (ownJob_eq_none_iff jobs id).mpr h, hp]
  simp [transcriptHandler, h1]

/-- C6 at the id `constructor`, which is no key of the empty registry: the
property read finds the inherited value, so both handlers go on to the provider;
the answer is 500 when the provider refuses and 200 when it accepts, never 404. -/
theorem unknown_inherited_id_reaches_provider :
    "constructor" ∉ keys [] ∧
    (statusHandler "constructor" (Fetch.resolved false 404 ⟨"", none⟩) []).code = 500 ∧
    (statusHandler "constructor" (Fetch.resolved false 404 ⟨"", none⟩) []).calls
      = [ProviderCall.poll "constructor"] ∧
    (statusHandler "constructor" (statusReply "queued") []).code = 200 ∧
    (transcriptHandler "constructor"
      (Fetch.resolved false 404 (⟨"", none, none⟩ : TranscriptData)) []).code = 500 ∧
    (transcriptHandler "constructor"
      (Fetch.resolved false 404 (⟨"", none, none⟩ : TranscriptData)) []).calls
      = [ProviderCall.poll "constructor"] := by
  refine ⟨by simp [keys], ?_, ?_, ?_, ?_, ?_⟩ <;> rfl

/-! ### The sweep: loop over keys against recursion over entries -/

theorem foldl_sweepJob_raised (t : Int) (ks : List String) (s : Sweep) (e : String)
    (h : s.raised = some e) : ks.foldl (sweepJob t) s = s := by
  induction ks with
  | nil => rfl
  | cons k rest ih =>
    have h1 : sweepJob t s k = s := by simp [sweepJob, h]
    simp [List.foldl_cons, h1, ih]

theorem deleteJob_of_not_mem (jobs : Registry) (id : String) (h : id ∉ keys jobs) :
    deleteJob jobs id = jobs := by
  unfold deleteJob
  apply List.filter_eq_self.mpr
  intro e he
  have : e.1 ≠ id := fun h2 => h (h2 ▸ List.mem_map.mpr ⟨e, he, rfl⟩)
  simpa using this

theorem deleteJob_append_cons (pre rest : Registry) (k : String) (j : Job)
    (h1 : k ∉ keys pre) (h2 : k ∉ keys rest) :
    deleteJob (pre ++ (k, j) :: rest) k = pre ++ rest := by
  have e1 := deleteJob_of_not_mem pre k h1
  have e2 := deleteJob_of_not_mem rest k h2
  unfold deleteJob at *
  simp only [ne_eq, decide_not] at e1 e2
  simp [List.filter_append, List.filter_cons, e1, e2]

theorem ownJob_append_cons (pre rest : Registry) (k : String) (j : Job) (h1 : k ∉ keys pre) :
    ownJob (pre ++ (k, j) :: rest) k = some j := by
  induction pre with
  | nil => simp [ownJob]
  | cons e pre ih =>
    obtain ⟨k2, j2⟩ := e
    simp only [keys, List.map_cons, List.mem_cons, not_or] at h1
    have h3 : ¬ k2 = k := fun h => h1.1 h.symm
    simp only [List.cons_append, ownJob, h3, if_false]
    exact ih h1.2

theorem sweep_fold (t : Int) (l : Registry) :
    ∀ (pre : Registry) (fs : FileSystem), (keys (pre ++ l)).Nodup →
      (keys l).foldl (sweepJob t) { jobs := pre ++ l, fs := fs, raised := none } =
        { jobs := pre ++ (sweepEntries t l fs).jobs, fs := (sweepEntries t l fs).fs,
          raised := (sweepEntries t l fs).raised } := by
  induction l with
  | nil => intro pre fs _; simp [keys, sweepEntries]
  | cons e rest ih =>
    intro pre fs hnd
    obtain ⟨k, j⟩ := e
    have hnd2 : (keys pre ++ k :: keys rest).Nodup := by simpa [keys] using hnd
    have hk1 : k ∉ keys pre := fun h =>
      (List.nodup_append.mp hnd2).2.2 h (List.mem_cons_self _ _)
    have hk2 : k ∉ keys rest :=
      (List.nodup_cons.mp (List.nodup_append.mp hnd2).2.1).1
    have hprop : getProperty (pre ++ (k, j) :: rest) k = Property.job j :=
      getProperty_of_ownJob (ownJob_append_cons pre rest k j hk1)
    have hnd3 : (keys (pre ++ rest)).Nodup := by
      have : (keys pre ++ keys rest).Nodup := by
        refine List.nodup_append.mpr ⟨(List.nodup_append.mp hnd2).1,
          (List.nodup_cons.mp (List.nodup_append.mp hnd2).2.1).2, ?_⟩
        intro a ha hb
        exact (List.nodup_append.mp hnd2).2.2 ha (List.mem_cons_of_mem _ hb)
      simpa [keys] using this
    simp only [keys, List.map_cons, List.foldl_cons]
    by_cases hexp : j.created < t
    · by_cases hfile : j.filePath ≠ "" ∧ existsSync fs j.filePath = true
      · cases hu : unlinkSync fs j.filePath with
        | error msg =>
          have hstep : sweepJob t { jobs := pre ++ (k, j) :: rest, fs := fs, raised := none } k
              = { jobs := pre ++ (k, j) :: rest, fs := fs, raised := some msg } := by
            simp [sweepJob, hprop, hexp, hfile, hu]
          rw [hstep, foldl_sweepJob_raised t _ _ msg rfl]
          simp [sweepEntries, hexp, hfile, hu]
        | ok fs1 =>
          have hstep : sweepJob t { jobs := pre ++ (k, j) :: rest, fs := fs, raised := none } k
              = { jobs := pre ++ rest, fs := fs1, raised := none } := by
            simp [sweepJob, hprop, hexp, hfile, hu, deleteJob_append_cons pre rest k j hk1 hk2]
          rw [hstep]
          have := ih pre fs1 hnd3
          simp only [keys] at this
          rw [this]
          simp [sweepEntries, hexp, hfile, hu]
      · have hstep : sweepJob t { jobs := pre ++ (k, j) :: rest, fs := fs, raised := none } k
            = { jobs := pre ++ rest, fs := fs, raised := none } := by
          simp only [sweepJob, hprop, hexp, if_true, hfile, if_false,
            deleteJob_append_cons pre rest k j hk1 hk2]
        rw [hstep]
        have := ih pre fs hnd3
        simp only [keys] at this
        rw [this]
        simp [sweepEntries, hexp, hfile]
    · have hstep : sweepJob t { jobs := pre ++ (k, j) :: rest, fs := fs, raised := none } k
          = { jobs := (pre ++ [(k, j)]) ++ rest, fs := fs, raised := none } := by
        simp [sweepJob, hprop, hexp]
      rw [hstep]
      have := ih (pre ++ [(k, j)]) fs (by simpa [keys] using hnd)
      simp only [keys] at this
      rw [this]
      simp [sweepEntries, hexp]

/-- Under unique keys the loop of `cleanupOldFiles` computes `sweepEntries`. -/
theorem cleanupOldFiles_eq_sweepEntries (now : Int) (jobs : Registry) (fs : FileSystem)
    (hnd : (keys jobs).Nodup) :
    cleanupOldFiles now jobs fs = sweepEntries (now - 60 * 60 * 1000) jobs fs := by
  have := sweep_fold (now - 60 * 60 * 1000) jobs [] fs (by simpa using hnd)
  simpa [cleanupOldFiles] using this

/-! ### The disk under the sweep -/

theorem unlinkSync_ok {fs fs1 : FileSystem} {path : String}
    (h : unlinkSync fs path = Except.ok fs1) :
    path ∉ fs.locked ∧
      fs1 = { fs with files := fs.files.filter (fun p => decide (p ≠ path)) } := by
  unfold unlinkSync at h
  by_cases h1 : path ∈ fs.locked
  · simp [h1] at h
  · by_cases h2 : existsSync fs path = false
    · simp [h1, h2] at h
    · rw [if_neg h1, if_neg h2] at h
      injection h with h
      exact ⟨h1, h.symm⟩

theorem unlinkSync_error {fs : FileSystem} {path e : String}
    (hex : existsSync fs path = true) (h : unlinkSync fs path = Except.error e) :
    path ∈ fs.locked := by
  unfold unlinkSync at h
  by_cases h1 : path ∈ fs.locked
  · exact h1
  · simp [h1, hex] at h

theorem existsSync_after_unlink (fs : FileSystem) (path q : String) :
    existsSync { fs with files := fs.files.filter (fun p => decide (p ≠ path)) } q
      = (existsSync fs q && decide (q ≠ path)) := by
  unfold existsSync
  by_cases h1 : q = ""
  · simp [h1]
  · by_cases h2 : q ∈ fs.files <;> by_cases h3 : q = path <;> simp [h1, h2, h3, List.mem_filter]

theorem sweepEntries_cons_raise {t : Int} {k : String} {j : Job} {rest : Registry}
    {fs : FileSystem} {msg : String} (hexp : j.created < t)
    (hfile : j.filePath ≠ "" ∧ existsSync fs j.filePath = true)
    (hu : unlinkSync fs j.filePath = Except.error msg) :
    sweepEntries t ((k, j) :: rest) fs
      = { jobs := (k, j) :: rest, fs := fs, raised := some msg } := by
  rw [sweepEntries, if_pos hexp, if_pos hfile, hu]

theorem sweepEntries_cons_unlink {t : Int} {k : String} {j : Job} {rest : Registry}
    {fs fs1 : FileSystem} (hexp : j.created < t)
    (hfile : j.filePath ≠ "" ∧ existsSync fs j.filePath = true)
    (hu : unlinkSync fs j.filePath = Except.ok fs1) :
    sweepEntries t ((k, j) :: rest) fs = sweepEntries t rest fs1 := by
  rw [sweepEntries, if_pos hexp, if_pos hfile, hu]

theorem sweepEntries_cons_skip {t : Int} {k : String} {j : Job} {rest : Registry}
    {fs : FileSystem} (hexp : j.created < t)
    (hfile : ¬ (j.filePath ≠ "" ∧ existsSync fs j.filePath = true)) :
    sweepEntries t ((k, j) :: rest) fs = sweepEntries t rest fs := by
  rw [sweepEntries, if_pos hexp, if_neg hfile]

theorem sweepEntries_cons_keep {t : Int} {k : String} {j : Job} {rest : Registry}
    {fs : FileSystem} (hexp : ¬ j.created < t) :
    sweepEntries t ((k, j) :: rest) fs
      = { jobs := (k, j) :: (sweepEntries t rest fs).jobs, fs := (sweepEntries t rest fs).fs,
          raised := (sweepEntries t rest fs).raised } := by
  rw [sweepEntries, if_neg hexp]

theorem sweepEntries_locked (t : Int) (l : Registry) :
    ∀ fs : FileSystem, (sweepEntries t l fs).fs.locked = fs.locked := by
  induction l with
  | nil => intro fs; rfl
  | cons e rest ih =>
    intro fs
    obtain ⟨k, j⟩ := e
    by_cases hexp : j.created < t
    · by_cases hfile : j.filePath ≠ "" ∧ existsSync fs j.filePath = true
      · cases hu : unlinkSync fs j.filePath with
        | error msg => rw [sweepEntries_cons_raise hexp hfile hu]
        | ok fs1 =>
          rw [sweepEntries_cons_unlink hexp hfile hu, ih fs1, (unlinkSync_ok hu).2]
      · rw [sweepEntries_cons_skip hexp hfile, ih fs]
    · rw [sweepEntries_cons_keep hexp]
      exact ih fs

theorem sweepEntries_exists_mono (t : Int) (l : Registry) (q : String) :
    ∀ fs : FileSystem, existsSync (sweepEntries t l fs).fs q = true → existsSync fs q = true := by
  induction l with
  | nil => intro fs h; exact h
  | cons e rest ih =>
    intro fs
    obtain ⟨k, j⟩ := e
    by_cases hexp : j.created < t
    · by_cases hfile : j.filePath ≠ "" ∧ existsSync fs j.filePath = true
      · cases hu : unlinkSync fs j.filePath with
        | error msg => rw [sweepEntries_cons_raise hexp hfile hu]; exact id
        | ok fs1 =>
          rw [sweepEntries_cons_unlink hexp hfile hu]
          intro h
          have h2 := ih fs1 h
          rw [(unlinkSync_ok hu).2, existsSync_after_unlink, Bool.and_eq_true] at h2
          exact h2.1
      · rw [sweepEntries_cons_skip hexp hfile]
        exact ih fs
    · rw [sweepEntries_cons_keep hexp]
      exact ih fs

theorem sweepEntries_sublist (t : Int) (l : Registry) :
    ∀ fs : FileSystem, List.Sublist (sweepEntries t l fs).jobs l := by
  induction l with
  | nil => intro fs; exact List.Sublist.slnil
  | cons e rest ih =>
    intro fs
    obtain ⟨k, j⟩ := e
    by_cases hexp : j.created < t
    · by_cases hfile : j.filePath ≠ "" ∧ existsSync fs j.filePath = true
      · cases hu : unlinkSync fs j.filePath with
        | error msg =>
          rw [sweepEntries_cons_raise hexp hfile hu]
        | ok fs1 =>
          rw [sweepEntries_cons_unlink hexp hfile hu]
          exact List.Sublist.cons _ (ih fs1)
      · rw [sweepEntries_cons_skip hexp hfile]
        exact List.Sublist.cons _ (ih fs)
    · rw [sweepEntries_cons_keep hexp]
      exact List.Sublist.cons₂ _ (ih fs)

theorem sweepEntries_keeps (t : Int) (l : Registry) (e0 : String × Job)
    (hnew : ¬ e0.2.created < t) :
    ∀ fs : FileSystem, e0 ∈ l → e0 ∈ (sweepEntries t l fs).jobs := by
  induction l with
  | nil => intro fs h; simp at h
  | cons e rest ih =>
    intro fs hmem
    obtain ⟨k, j⟩ := e
    by_cases hexp : j.created < t
    · have hne : e0 ≠ (k, j) := fun h => hnew (h ▸ hexp)
      have hin : e0 ∈ rest := by
        rcases List.mem_cons.mp hmem with h | h
        · exact absurd h hne
        · exact h
      by_cases hfile : j.filePath ≠ "" ∧ existsSync fs j.filePath = true
      · cases hu : unlinkSync fs j.filePath with
        | error msg =>
          rw [sweepEntries_cons_raise hexp hfile hu]
          exact hmem
        | ok fs1 =>
          rw [sweepEntries_cons_unlink hexp hfile hu]
          exact ih fs1 hin
      · rw [sweepEntries_cons_skip hexp hfile]
        exact ih fs hin
    · rw [sweepEntries_cons_keep hexp]
      rcases List.mem_cons.mp hmem with h | h
      · exact h ▸ List.mem_cons_self _ _
      · exact List.mem_cons_of_mem _ (ih fs h)

theorem sweepEntries_filter (t : Int) (l : Registry) :
    ∀ fs : FileSystem, (sweepEntries t l fs).raised = none →
      (sweepEntries t l fs).jobs = l.filter (fun e => decide (¬ e.2.created < t)) := by
  induction l with
  | nil => intro fs _; rfl
  | cons e rest ih =>
    intro fs
    obtain ⟨k, j⟩ := e
    by_cases hexp : j.created < t
    · by_cases hfile : j.filePath ≠ "" ∧ existsSync fs j.filePath = true
      · cases hu : unlinkSync fs j.filePath with
        | error msg =>
          rw [sweepEntries_cons_raise hexp hfile hu]
          intro h
          simp at h
        | ok fs1 =>
          rw [sweepEntries_cons_unlink hexp hfile hu]
          intro h
          rw [ih fs1 h]
          simp [List.filter_cons, hexp]
      · rw [sweepEntries_cons_skip hexp hfile]
        intro h
        rw [ih fs h]
        simp [List.filter_cons, hexp]
    · rw [sweepEntries_cons_keep hexp]
      intro h
      simp only at h
      simp only [ih fs h]
      simp [List.filter_cons, not_lt.mp hexp]

theorem blocked_after_unlink {fs fs1 : FileSystem} {path : String}
    (hu : unlinkSync fs path = Except.ok fs1) (job : Job) :
    blocked fs1 job ↔ blocked fs job := by
  obtain ⟨h1, h2⟩ := unlinkSync_ok hu
  unfold blocked
  rw [h2, existsSync_after_unlink]
  constructor
  · rintro ⟨ha, hb⟩
    rw [Bool.and_eq_true] at ha
    exact ⟨ha.1, hb⟩
  · rintro ⟨ha, hb⟩
    have hne : job.filePath ≠ path := fun h => h1 (h ▸ hb)
    exact ⟨by simp [ha, hne], hb⟩

theorem sweepEntries_raised_none_iff (t : Int) (l : Registry) :
    ∀ fs : FileSystem, (sweepEntries t l fs).raised = none ↔
      ∀ e ∈ l, e.2.created < t → ¬ blocked fs e.2 := by
  induction l with
  | nil => intro fs; simp [sweepEntries]
  | cons e rest ih =>
    intro fs
    obtain ⟨k, j⟩ := e
    by_cases hexp : j.created < t
    · by_cases hfile : j.filePath ≠ "" ∧ existsSync fs j.filePath = true
      · cases hu : unlinkSync fs j.filePath with
        | error msg =>
          rw [sweepEntries_cons_raise hexp hfile hu]
          constructor
          · intro h; simp at h
          · intro h
            exact absurd ⟨hfile.2, unlinkSync_error hfile.2 hu⟩
              (h (k, j) (List.mem_cons_self _ _) hexp)
        | ok fs1 =>
          rw [sweepEntries_cons_unlink hexp hfile hu, ih fs1]
          constructor
          · intro h e he hx
            rcases List.mem_cons.mp he with h1 | h1
            · subst h1
              exact fun hb => (unlinkSync_ok hu).1 hb.2
            · exact fun hb => h e h1 hx ((blocked_after_unlink hu e.2).mpr hb)
          · intro h e he hx hb
            exact h e (List.mem_cons_of_mem _ he) hx ((blocked_after_unlink hu e.2).mp hb)
      · rw [sweepEntries_cons_skip hexp hfile, ih fs]
        constructor
        · intro h e he hx
          rcases List.mem_cons.mp he with h1 | h1
          · subst h1
            intro hb
            apply hfile
            refine ⟨?_, hb.1⟩
            intro hempty
            have := hb.1
            simp [existsSync, hempty] at this
          · exact h e h1 hx
        · intro h e he hx
          exact h e (List.mem_cons_of_mem _ he) hx
    · rw [sweepEntries_cons_keep hexp]
      simp only
      rw [ih fs]
      constructor
      · intro h e he hx
        rcases List.mem_cons.mp he with h1 | h1
        · subst h1
          exact absurd hx hexp
        · exact h e h1 hx
      · intro h e he hx
        exact h e (List.mem_cons_of_mem _ he) hx

theorem sweepEntries_purged_absent (t : Int) (l : Registry) (e0 : String × Job) :
    ∀ fs : FileSystem, e0 ∈ l → e0 ∉ (sweepEntries t l fs).jobs →
      existsSync (sweepEntries t l fs).fs e0.2.filePath = false := by
  induction l with
  | nil => intro fs h; simp at h
  | cons e rest ih =>
    intro fs hmem
    obtain ⟨k, j⟩ := e
    by_cases hexp : j.created < t
    · by_cases hfile : j.filePath ≠ "" ∧ existsSync fs j.filePath = true
      · cases hu : unlinkSync fs j.filePath with
        | error msg =>
          rw [sweepEntries_cons_raise hexp hfile hu]
          intro h
          exact absurd hmem h
        | ok fs1 =>
          rw [sweepEntries_cons_unlink hexp hfile hu]
          intro hout
          rcases List.mem_cons.mp hmem with h1 | h1
          · subst h1
            cases hq : existsSync (sweepEntries t rest fs1).fs j.filePath with
            | false => rfl
            | true =>
              have h2 := sweepEntries_exists_mono t rest j.filePath fs1 hq
              rw [(unlinkSync_ok hu).2, existsSync_after_unlink] at h2
              simp at h2
          · exact ih fs1 h1 hout
      · rw [sweepEntries_cons_skip hexp hfile]
        intro hout
        rcases List.mem_cons.mp hmem with h1 | h1
        · subst h1
          cases hq : existsSync (sweepEntries t rest fs).fs j.filePath with
          | false => rfl
          | true =>
            have h2 := sweepEntries_exists_mono t rest j.filePath fs hq
            exfalso
            apply hfile
            refine ⟨?_, h2⟩
            intro hempty
            simp [existsSync, hempty] at h2
        · exact ih fs h1 hout
    · rw [sweepEntries_cons_keep hexp]
      intro hout
      simp only [List.mem_cons, not_or] at hout
      rcases List.mem_cons.mp hmem with h1 | h1
      · exact absurd h1 hout.1
      · exact ih fs h1 hout.2

theorem sweepEntries_deleted_purged (t : Int) (l : Registry) (q : String) :
    ∀ fs : FileSystem, (keys l).Nodup → existsSync fs q = true →
      existsSync (sweepEntries t l fs).fs q = false →
      ∃ e ∈ l, e.1 ∉ keys (sweepEntries t l fs).jobs ∧ e.2.filePath = q := by
  induction l with
  | nil => intro fs _ h1 h2; simp [sweepEntries, h1] at h2
  | cons e rest ih =>
    intro fs hnd hq
    obtain ⟨k, j⟩ := e
    have hk : k ∉ keys rest := by
      simp only [keys, List.map_cons, List.nodup_cons] at hnd
      exact hnd.1
    have hnd2 : (keys rest).Nodup := by
      simp only [keys, List.map_cons, List.nodup_cons] at hnd
      exact hnd.2
    by_cases hexp : j.created < t
    · by_cases hfile : j.filePath ≠ "" ∧ existsSync fs j.filePath = true
      · cases hu : unlinkSync fs j.filePath with
        | error msg =>
          rw [sweepEntries_cons_raise hexp hfile hu]
          intro h
          simp [hq] at h
        | ok fs1 =>
          rw [sweepEntries_cons_unlink hexp hfile hu]
          intro hgone
          by_cases hqp : q = j.filePath
          · refine ⟨(k, j), List.mem_cons_self _ _, ?_, hqp.symm⟩
            intro hin
            obtain ⟨e, he, hek⟩ := List.mem_map.mp hin
            exact hk (List.mem_map.mpr ⟨e, (sweepEntries_sublist t rest fs1).subset he, hek⟩)
          · have hq1 : existsSync fs1 q = true := by
              rw [(unlinkSync_ok hu).2, existsSync_after_unlink]
              simp [hq, hqp]
            obtain ⟨e, he, h1, h2⟩ := ih fs1 hnd2 hq1 hgone
            exact ⟨e, List.mem_cons_of_mem _ he, h1, h2⟩
      · rw [sweepEntries_cons_skip hexp hfile]
        intro hgone
        obtain ⟨e, he, h1, h2⟩ := ih fs hnd2 hq hgone
        exact ⟨e, List.mem_cons_of_mem _ he, h1, h2⟩
    · rw [sweepEntries_cons_keep hexp]
      intro hgone
      obtain ⟨e, he, h1, h2⟩ := ih fs hnd2 hq hgone
      refine ⟨e, List.mem_cons_of_mem _ he, ?_, h2⟩
      simp only [keys, List.map_cons, List.mem_cons, not_or]
      refine ⟨?_, h1⟩
      intro hek
      exact hk (hek ▸ List.mem_map.mpr ⟨e, he, rfl⟩)

/-! ### Retention sweep: the claims -/

theorem expired_iff (now : Int) (job : Job) :
    expired now job ↔ job.created < now - 60 * 60 * 1000 := by
  unfold expired
  omega

theorem keys_nodup_of_sublist {l1 l2 : Registry} (hs : List.Sublist l1 l2)
    (hnd : (keys l2).Nodup) : (keys l1).Nodup :=
  List.Nodup.sublist (List.Sublist.map Prod.fst hs) hnd

theorem ownJob_singleton {k id : String} {j j2 : Job} (h : ownJob [(k, j)] id = some j2) :
    id = k ∧ j2 = j := by
  by_cases hk : k = id
  · simp [ownJob, hk] at h
    exact ⟨hk.symm, h.symm⟩
  · simp [ownJob, hk] at h

/-- C2. Whenever no removal of the file of an expired job is refused, the sweep
ends normally and leaves exactly the jobs whose age `now - created` is at most
one hour, unchanged and in their order: every older job is gone whatever its
status, a lookup of its id finds nothing and the status handler answers 404 for
it (for an id that is not one of the names a plain object inherits), and every
job of age at most one hour is still there as it was. -/
theorem cleanupOldFiles_keeps_exactly_recent (now : Int) (jobs : Registry) (fs : FileSystem)
    (hnd : (keys jobs).Nodup)
    (hok : ∀ k j, ownJob jobs k = some j → expired now j → ¬ blocked fs j) :
    (cleanupOldFiles now jobs fs).raised = none ∧
    (cleanupOldFiles now jobs fs).jobs
      = jobs.filter (fun e => decide (now - e.2.created ≤ 60 * 60 * 1000)) ∧
    (∀ k j, ownJob jobs k = some j → now - j.created > 60 * 60 * 1000 →
      ownJob (cleanupOldFiles now jobs fs).jobs k = none ∧
      (k ∉ objectPrototypeNames →
        ∀ r, (statusHandler k r (cleanupOldFiles now jobs fs).jobs).code = 404)) ∧
    (∀ k j, ownJob jobs k = some j → now - j.created ≤ 60 * 60 * 1000 →
      ownJob (cleanupOldFiles now jobs fs).jobs k = some j) := by
  rw [cleanupOldFiles_eq_sweepEntries now jobs fs hnd]
  have hraised : (sweepEntries (now - 60 * 60 * 1000) jobs fs).raised = none := by
    rw [sweepEntries_raised_none_iff]
    intro e he hx
    exact hok e.1 e.2 (ownJob_of_mem hnd he) ((expired_iff now e.2).mpr hx)
  have hfilter : (sweepEntries (now - 60 * 60 * 1000) jobs fs).jobs
      = jobs.filter (fun e => decide (now - e.2.created ≤ 60 * 60 * 1000)) := by
    rw [sweepEntries_filter _ _ _ hraised]
    apply List.filter_congr
    intro e _
    apply decide_eq_decide.mpr
    omega
  have hnd2 : (keys (sweepEntries (now - 60 * 60 * 1000) jobs fs).jobs).Nodup :=
    keys_nodup_of_sublist (sweepEntries_sublist _ _ _) hnd
  have hgone : ∀ k j, ownJob jobs k = some j → now - j.created > 60 * 60 * 1000 →
      k ∉ keys (sweepEntries (now - 60 * 60 * 1000) jobs fs).jobs := by
    intro k j hj hold hin
    obtain ⟨e, he, hek⟩ := List.mem_map.mp hin
    rw [hfilter] at he
    obtain ⟨he1, he2⟩ := List.mem_filter.mp he
    have h3 : ownJob jobs e.1 = some e.2 := ownJob_of_mem hnd he1
    rw [hek, hj] at h3
    injection h3 with h3
    rw [← h3] at he2
    have h4 := of_decide_eq_true he2
    omega
  refine ⟨hraised, hfilter, ?_, ?_⟩
  · intro k j hj hold
    refine ⟨(ownJob_eq_none_iff _ _).mpr (hgone k j hj hold), fun hp r => ?_⟩
    rw [statusHandler_unknown_id _ k r (hgone k j hj hold) hp]
  · intro k j hj hnew
    apply ownJob_of_mem hnd2
    rw [hfilter]
    exact List.mem_filter.mpr ⟨ownJob_mem hj, decide_eq_true hnew⟩

/-- Witness of C2: at time 4000000 a job created at 0 goes and a job created at
3000000 stays. -/
theorem cleanupOldFiles_keeps_exactly_recent_witness :
    (keys [("j1", ⟨"processing", "/uploads/a.mp4", 0, none⟩),
           ("j2", ⟨"queued", "/uploads/b.mp4", 3000000, none⟩)]).Nodup ∧
    (cleanupOldFiles 4000000
      [("j1", ⟨"processing", "/uploads/a.mp4", 0, none⟩),
       ("j2", ⟨"queued", "/uploads/b.mp4", 3000000, none⟩)]
      ⟨["/uploads/a.mp4", "/uploads/b.mp4"], []⟩).jobs
      = [("j2", ⟨"queued", "/uploads/b.mp4", 3000000, none⟩)] :=
  ⟨by decide,
   (cleanupOldFiles_keeps_exactly_recent 4000000
      [("j1", ⟨"processing", "/uploads/a.mp4", 0, none⟩),
       ("j2", ⟨"queued", "/uploads/b.mp4", 3000000, none⟩)]
      ⟨["/uploads/a.mp4", "/uploads/b.mp4"], []⟩ (by decide)
      (fun _ _ _ _ hb => by simp [blocked] at hb)).2.1⟩

/-- C7. With the disk as a set of existing paths, and a registry that satisfies
its invariant (unique keys, no two jobs naming the same file): after the sweep the file of every job that left the
registry does not exist (it was removed, or was missing already), and the file of
every job still in the registry exists if it existed before. This holds for every
outcome of the removals. -/
theorem cleanupOldFiles_files (now : Int) (jobs : Registry) (fs : FileSystem)
    (hinv : Invariant jobs) :
    (∀ k j, ownJob jobs k = some j → ownJob (cleanupOldFiles now jobs fs).jobs k = none →
      existsSync (cleanupOldFiles now jobs fs).fs j.filePath = false) ∧
    (∀ k j, ownJob (cleanupOldFiles now jobs fs).jobs k = some j →
      existsSync fs j.filePath = true →
      existsSync (cleanupOldFiles now jobs fs).fs j.filePath = true) := by
  obtain ⟨hnd, hpaths⟩ := hinv
  rw [cleanupOldFiles_eq_sweepEntries now jobs fs hnd]
  constructor
  · intro k j hj hgone
    have hout : (k, j) ∉ (sweepEntries (now - 60 * 60 * 1000) jobs fs).jobs := fun hin =>
      (ownJob_eq_none_iff _ _).mp hgone (mem_keys_of_mem hin)
    exact sweepEntries_purged_absent _ jobs (k, j) fs (ownJob_mem hj) hout
  · intro k j hj hbefore
    cases hq : existsSync (sweepEntries (now - 60 * 60 * 1000) jobs fs).fs j.filePath with
    | true => rfl
    | false =>
      exfalso
      obtain ⟨e, he, h1, h2⟩ := sweepEntries_deleted_purged _ jobs j.filePath fs hnd hbefore hq
      have hkj : (k, j) ∈ jobs := (sweepEntries_sublist _ _ _).subset (ownJob_mem hj)
      have hek : e.1 = k :=
        hpaths e.1 k e.2 j (ownJob_of_mem hnd he) (ownJob_of_mem hnd hkj) h2
      exact h1 (hek ▸ mem_keys_of_mem (ownJob_mem hj))

/-- Witness of C7 (scenario D): a job created 61 minutes ago is purged and its
temporary file no longer exists. -/
theorem cleanupOldFiles_files_witness :
    ownJob (cleanupOldFiles (61 * 60 * 1000)
      [("j1", ⟨"processing", "/uploads/a.mp4", 0, none⟩)] ⟨["/uploads/a.mp4"], []⟩).jobs "j1"
      = none ∧
    existsSync (cleanupOldFiles (61 * 60 * 1000)
      [("j1", ⟨"processing", "/uploads/a.mp4", 0, none⟩)] ⟨["/uploads/a.mp4"], []⟩).fs
      "/uploads/a.mp4" = false :=
  ⟨by decide,
   (cleanupOldFiles_files (61 * 60 * 1000)
      [("j1", ⟨"processing", "/uploads/a.mp4", 0, none⟩)] ⟨["/uploads/a.mp4"], []⟩
      ⟨by decide,
       fun _ _ _ _ h1 h2 _ => (ownJob_singleton h1).1.trans (ownJob_singleton h2).1.symm⟩).1
      "j1" ⟨"processing", "/uploads/a.mp4", 0, none⟩ (by decide) (by decide)⟩

/-- C8, as the code has it. `cleanupOldFiles` has no handler of its own: it returns
normally exactly when no expired job has an existing file whose removal is
refused (a missing file is skipped), and then every expired job record is gone;
a refused removal raises to the caller. -/
theorem cleanupOldFiles_returns_iff (now : Int) (jobs : Registry) (fs : FileSystem)
    (hnd : (keys jobs).Nodup) :
    ((cleanupOldFiles now jobs fs).raised = none ↔
      ∀ k j, ownJob jobs k = some j → expired now j → ¬ blocked fs j) ∧
    ((cleanupOldFiles now jobs fs).raised = none →
      ∀ k j, ownJob jobs k = some j → expired now j →
        ownJob (cleanupOldFiles now jobs fs).jobs k = none) := by
  rw [cleanupOldFiles_eq_sweepEntries now jobs fs hnd]
  refine ⟨?_, ?_⟩
  · rw [sweepEntries_raised_none_iff]
    constructor
    · intro h k j hj hx
      exact h (k, j) (ownJob_mem hj) ((expired_iff now j).mp hx)
    · intro h e he hx
      exact h e.1 e.2 (ownJob_of_mem hnd he) ((expired_iff now e.2).mpr hx)
  · intro hraised k j hj hx
    rw [ownJob_eq_none_iff, sweepEntries_filter _ _ _ hraised]
    intro hin
    obtain ⟨e, he, hek⟩ := List.mem_map.mp hin
    obtain ⟨he1, he2⟩ := List.mem_filter.mp he
    have h3 : ownJob jobs e.1 = some e.2 := ownJob_of_mem hnd he1
    rw [hek, hj] at h3
    injection h3 with h3
    rw [← h3] at he2
    exact (of_decide_eq_true he2) ((expired_iff now j).mp hx)

/-- Witness of C8: one expired job whose file is missing; the sweep returns
normally. -/
theorem cleanupOldFiles_returns_iff_witness :
    (keys [("j1", ⟨"completed", "/uploads/a.mp4", 0, none⟩)]).Nodup ∧
    ((cleanupOldFiles 3600001 [("j1", ⟨"completed", "/uploads/a.mp4", 0, none⟩)]
        ⟨[], ["/uploads/a.mp4"]⟩).raised = none ↔
      ∀ k j, ownJob [("j1", ⟨"completed", "/uploads/a.mp4", 0, none⟩)] k = some j →
        expired 3600001 j → ¬ blocked ⟨[], ["/uploads/a.mp4"]⟩ j) :=
  ⟨by decide,
   (cleanupOldFiles_returns_iff 3600001 [("j1", ⟨"completed", "/uploads/a.mp4", 0, none⟩)]
      ⟨[], ["/uploads/a.mp4"]⟩ (by decide)).1⟩

/-- Counterexample to C8 as stated: one expired job whose file exists and cannot
be removed. The sweep raises and the expired record is still in the registry. -/
theorem cleanupOldFiles_raises :
    expired 3600001 ⟨"completed", "/uploads/a.mp4", 0, none⟩ ∧
    (cleanupOldFiles 3600001 [("j1", ⟨"completed", "/uploads/a.mp4", 0, none⟩)]
      ⟨["/uploads/a.mp4"], ["/uploads/a.mp4"]⟩).raised
      = some "EPERM: operation not permitted, unlink" ∧
    ownJob (cleanupOldFiles 3600001 [("j1", ⟨"completed", "/uploads/a.mp4", 0, none⟩)]
      ⟨["/uploads/a.mp4"], ["/uploads/a.mp4"]⟩).jobs "j1"
      = some ⟨"completed", "/uploads/a.mp4", 0, none⟩ := by
  refine ⟨by decide, ?_, ?_⟩ <;> decide

/-! ### Upload handler -/

theorem ownJob_append_single (jobs : Registry) (id k : String) (job : Job) :
    ownJob (jobs ++ [(id, job)]) k =
      match ownJob jobs k with
      | some j => some j
      | none => if id = k then some job else none := by
  induction jobs with
  | nil => simp [ownJob]
  | cons e rest ih =>
    obtain ⟨k2, j2⟩ := e
    by_cases h : k2 = k
    · simp [ownJob, h]
    · have e1 : ownJob ((k2, j2) :: rest ++ [(id, job)]) k = ownJob (rest ++ [(id, job)]) k := by
        rw [List.cons_append, ownJob, if_neg h]
      have e2 : ownJob ((k2, j2) :: rest) k = ownJob rest k := by
        rw [ownJob, if_neg h]
      rw [e1, e2, ih]

theorem ownJob_assignJob_same (jobs : Registry) (id : String) (job : Job)
    (hid : id ≠ "__proto__") : ownJob (assignJob jobs id job) id = some job := by
  unfold assignJob
  rw [if_neg hid]
  cases h : ownJob jobs id with
  | some j => exact ownJob_replaceJob_same jobs id j job h
  | none => simp [ownJob_append_single, h]

theorem ownJob_assignJob_other (jobs : Registry) (id k : String) (job : Job) (hk : k ≠ id) :
    ownJob (assignJob jobs id job) k = ownJob jobs k := by
  unfold assignJob
  by_cases hid : id = "__proto__"
  · rw [if_pos hid]
  · rw [if_neg hid]
    cases h : ownJob jobs id with
    | some j => exact ownJob_replaceJob_other jobs id k job hk
    | none =>
      have hk2 : ¬ id = k := fun h2 => hk h2.symm
      simp only [ownJob_append_single, hk2, if_false]
      cases ownJob jobs k <;> rfl

theorem keys_assignJob_nodup (jobs : Registry) (id : String) (job : Job)
    (hnd : (keys jobs).Nodup) : (keys (assignJob jobs id job)).Nodup := by
  unfold assignJob
  by_cases hid : id = "__proto__"
  · rw [if_pos hid]; exact hnd
  · rw [if_neg hid]
    cases h : ownJob jobs id with
    | some j => simp only [keys_replaceJob]; exact hnd
    | none =>
      have hnot := (ownJob_eq_none_iff jobs id).mp h
      simp only [keys, List.map_append, List.map_cons, List.map_nil]
      refine List.nodup_append.mpr ⟨hnd, List.nodup_singleton _, ?_⟩
      intro a ha hb
      rw [List.mem_singleton.mp hb] at ha
      exact hnot ha

theorem sweepEntries_append_recent (t : Int) (l : Registry) (e : String × Job)
    (hnew : ¬ e.2.created < t) :
    ∀ fs : FileSystem, (sweepEntries t (l ++ [e]) fs).jobs = (sweepEntries t l fs).jobs ++ [e] := by
  induction l with
  | nil =>
    intro fs
    obtain ⟨k, j⟩ := e
    rw [List.nil_append, sweepEntries_cons_keep hnew]
    rfl
  | cons e2 rest ih =>
    intro fs
    obtain ⟨k, j⟩ := e2
    rw [List.cons_append]
    by_cases hexp : j.created < t
    · by_cases hfile : j.filePath ≠ "" ∧ existsSync fs j.filePath = true
      · cases hu : unlinkSync fs j.filePath with
        | error msg =>
          rw [sweepEntries_cons_raise hexp hfile hu, sweepEntries_cons_raise hexp hfile hu]
          rfl
        | ok fs1 =>
          rw [sweepEntries_cons_unlink hexp hfile hu, sweepEntries_cons_unlink hexp hfile hu]
          exact ih fs1
      · rw [sweepEntries_cons_skip hexp hfile, sweepEntries_cons_skip hexp hfile]
        exact ih fs
    · rw [sweepEntries_cons_keep hexp, sweepEntries_cons_keep hexp]
      simp only [List.cons_append, ih fs]

theorem assignJob_fresh (jobs : Registry) (id : String) (job : Job) (hid : id ≠ "__proto__")
    (hfresh : id ∉ keys jobs) : assignJob jobs id job = jobs ++ [(id, job)] := by
  unfold assignJob
  rw [if_neg hid, (ownJob_eq_none_iff jobs id).mpr hfresh]

/-- C4. For an upload request carrying a file: when the provider upload call or
the transcription request fails or is refused, the answer is 500 and the registry
is the one before the request. When both succeed, the answer is 200 with the
provider id; the registry holds under that id a job with status queued, the path
of the uploaded file and the creation time; no other key is new or changed; every
other job that has not expired is still there; and for an id the registry did not
hold (provider ids are unique) the registry is the swept registry of before
followed by exactly that one new job, hence the registry of before followed by
the new job when nothing in it has expired. The success part assumes unique keys,
a provider id other than the reserved name `__proto__`, and a sweep that reads
the clock less than one hour after the job was stamped. -/
theorem uploadHandler_registers_on_success_only (reqFile : UploadedFile) (created sweepAt : Int)
    (jobs : Registry) (fs : FileSystem) :
    (∀ (r2 : Fetch TranscriptionData) (message : String),
      (uploadHandler (some reqFile) (Fetch.failed message) r2 created sweepAt jobs fs).code = 500 ∧
      (uploadHandler (some reqFile) (Fetch.failed message) r2 created sweepAt jobs fs).jobs
        = jobs) ∧
    (∀ (r2 : Fetch TranscriptionData) (code : Nat) (d : UploadData),
      (uploadHandler (some reqFile) (Fetch.resolved false code d) r2 created sweepAt jobs fs).code
        = 500 ∧
      (uploadHandler (some reqFile) (Fetch.resolved false code d) r2 created sweepAt jobs fs).jobs
        = jobs) ∧
    (∀ (code : Nat) (d : UploadData) (message : String),
      (uploadHandler (some reqFile) (Fetch.resolved true code d) (Fetch.failed message)
        created sweepAt jobs fs).code = 500 ∧
      (uploadHandler (some reqFile) (Fetch.resolved true code d) (Fetch.failed message)
        created sweepAt jobs fs).jobs = jobs) ∧
    (∀ (code : Nat) (d : UploadData) (code2 : Nat) (d2 : TranscriptionData),
      (uploadHandler (some reqFile) (Fetch.resolved true code d) (Fetch.resolved false code2 d2)
        created sweepAt jobs fs).code = 500 ∧
      (uploadHandler (some reqFile) (Fetch.resolved true code d) (Fetch.resolved false code2 d2)
        created sweepAt jobs fs).jobs = jobs) ∧
    (∀ (code : Nat) (d : UploadData) (code2 : Nat) (d2 : TranscriptionData),
      (keys jobs).Nodup → d2.id ≠ "__proto__" → sweepAt - created ≤ 60 * 60 * 1000 →
      (uploadHandler (some reqFile) (Fetch.resolved true code d) (Fetch.resolved true code2 d2)
        created sweepAt jobs fs).code = 200 ∧
      (uploadHandler (some reqFile) (Fetch.resolved true code d) (Fetch.resolved true code2 d2)
        created sweepAt jobs fs).body = Body.transcriptionId d2.id ∧
      ownJob (uploadHandler (some reqFile) (Fetch.resolved true code d)
        (Fetch.resolved true code2 d2) created sweepAt jobs fs).jobs d2.id
        = some { status := "queued", filePath := reqFile.path, created := created,
                 error := none } ∧
      (∀ k j, k ≠ d2.id →
        ownJob (uploadHandler (some reqFile) (Fetch.resolved true code d)
          (Fetch.resolved true code2 d2) created sweepAt jobs fs).jobs k = some j →
        ownJob jobs k = some j) ∧
      (∀ k j, k ≠ d2.id → ownJob jobs k = some j → ¬ expired sweepAt j →
        ownJob (uploadHandler (some reqFile) (Fetch.resolved true code d)
          (Fetch.resolved true code2 d2) created sweepAt jobs fs).jobs k = some j) ∧
      (d2.id ∉ keys jobs →
        (uploadHandler (some reqFile) (Fetch.resolved true code d)
          (Fetch.resolved true code2 d2) created sweepAt jobs fs).jobs
          = (cleanupOldFiles sweepAt jobs fs).jobs ++
              [(d2.id, { status := "queued", filePath := reqFile.path, created := created,
                         error := none })]) ∧
      (d2.id ∉ keys jobs → (∀ k j, ownJob jobs k = some j → ¬ expired sweepAt j) →
        (uploadHandler (some reqFile) (Fetch.resolved true code d)
          (Fetch.resolved true code2 d2) created sweepAt jobs fs).jobs
          = jobs ++
              [(d2.id, { status := "queued", filePath := reqFile.path, created := created,
                         error := none })])) := by
  refine ⟨fun r2 message => ⟨rfl, rfl⟩, fun r2 code d => ⟨rfl, rfl⟩,
    fun code d message => ⟨rfl, rfl⟩, fun code d code2 d2 => ⟨rfl, rfl⟩, ?_⟩
  intro code d code2 d2 hnd hid htime
  have hnd1 := keys_assignJob_nodup jobs d2.id
    { status := "queued", filePath := reqFile.path, created := created, error := none } hnd
  have hrun : (uploadHandler (some reqFile) (Fetch.resolved true code d)
      (Fetch.resolved true code2 d2) created sweepAt jobs fs).jobs
      = (sweepEntries (sweepAt - 60 * 60 * 1000) (assignJob jobs d2.id
          { status := "queued", filePath := reqFile.path, created := created, error := none })
          fs).jobs := by
    rw [← cleanupOldFiles_eq_sweepEntries _ _ _ hnd1]
    rfl
  have hrecent : ¬ created < sweepAt - 60 * 60 * 1000 := by omega
  have hfreshEq : d2.id ∉ keys jobs →
      (uploadHandler (some reqFile) (Fetch.resolved true code d)
        (Fetch.resolved true code2 d2) created sweepAt jobs fs).jobs
        = (cleanupOldFiles sweepAt jobs fs).jobs ++
            [(d2.id, { status := "queued", filePath := reqFile.path, created := created,
                       error := none })] := by
    intro hfresh
    rw [hrun, assignJob_fresh jobs d2.id _ hid hfresh,
      sweepEntries_append_recent _ jobs (d2.id, _) hrecent fs,
      cleanupOldFiles_eq_sweepEntries _ _ _ hnd]
  refine ⟨rfl, rfl, ?_, ?_, ?_, hfreshEq, ?_⟩
  · rw [hrun]
    apply ownJob_of_mem (keys_nodup_of_sublist (sweepEntries_sublist _ _ _) hnd1)
    exact sweepEntries_keeps _ _ (d2.id, _) hrecent fs
      (ownJob_mem (ownJob_assignJob_same _ _ _ hid))
  · intro k j hk hj
    rw [hrun] at hj
    have h1 := (sweepEntries_sublist _ _ fs).subset (ownJob_mem hj)
    rw [← ownJob_assignJob_other jobs d2.id k _ hk]
    exact ownJob_of_mem hnd1 h1
  · intro k j hk hj hlive
    rw [hrun]
    apply ownJob_of_mem (keys_nodup_of_sublist (sweepEntries_sublist _ _ _) hnd1)
    apply sweepEntries_keeps _ _ (k, j) (fun hx => hlive ((expired_iff sweepAt j).mpr hx)) fs
    apply ownJob_mem
    rw [ownJob_assignJob_other jobs d2.id k _ hk]
    exact hj
  · intro hfresh hlive
    rw [hfreshEq hfresh, cleanupOldFiles_eq_sweepEntries _ _ _ hnd]
    have hraised : (sweepEntries (sweepAt - 60 * 60 * 1000) jobs fs).raised = none := by
      rw [sweepEntries_raised_none_iff]
      intro e he hx
      exact absurd ((expired_iff sweepAt e.2).mpr hx) (hlive e.1 e.2 (ownJob_of_mem hnd he))
    rw [sweepEntries_filter _ _ _ hraised]
    congr 1
    apply List.filter_eq_self.mpr
    intro e he
    apply decide_eq_true
    intro hx
    exact hlive e.1 e.2 (ownJob_of_mem hnd he) ((expired_iff sweepAt e.2).mpr hx)

/-- Witness of C4: both provider calls succeed on a registry with one recent job;
afterwards the registry is that job followed by the new one. -/
theorem uploadHandler_registers_on_success_only_witness :
    (uploadHandler (some ⟨"/uploads/1-2.mp4", "video/mp4", 5242880⟩)
      (Fetch.resolved true 200 ⟨"https://cdn.example/u1"⟩) (Fetch.resolved true 200 ⟨"t1"⟩)
      1000 1001 [("t0", ⟨"processing", "/uploads/0-1.mp4", 500, none⟩)]
      ⟨["/uploads/0-1.mp4", "/uploads/1-2.mp4"], []⟩).code = 200 ∧
    (uploadHandler (some ⟨"/uploads/1-2.mp4", "video/mp4", 5242880⟩)
      (Fetch.resolved true 200 ⟨"https://cdn.example/u1"⟩) (Fetch.resolved true 200 ⟨"t1"⟩)
      1000 1001 [("t0", ⟨"processing", "/uploads/0-1.mp4", 500, none⟩)]
      ⟨["/uploads/0-1.mp4", "/uploads/1-2.mp4"], []⟩).jobs
      = [("t0", ⟨"processing", "/uploads/0-1.mp4", 500, none⟩),
         ("t1", ⟨"queued", "/uploads/1-2.mp4", 1000, none⟩)] :=
  have h := (uploadHandler_registers_on_success_only ⟨"/uploads/1-2.mp4", "video/mp4", 5242880⟩
    1000 1001 [("t0", ⟨"processing", "/uploads/0-1.mp4", 500, none⟩)]
    ⟨["/uploads/0-1.mp4", "/uploads/1-2.mp4"], []⟩).2.2.2.2 200 ⟨"https://cdn.example/u1"⟩ 200
    ⟨"t1"⟩ (by decide) (by decide) (by decide)
  ⟨h.1, h.2.2.2.2.2.2 (by decide)
    (fun k j hj => by
      obtain ⟨_, hj2⟩ := ownJob_singleton hj
      rw [hj2]
      decide)⟩

/-- Counterexample to C9 as stated: a file of type image/png is uploaded, both
provider calls succeed, and the server answers 200 and registers a job. -/
theorem uploadHandler_accepts_png :
    List.isPrefixOf "video/".data "image/png".data = false ∧
    (uploadHandler (some ⟨"/uploads/1-2.png", "image/png", 2048⟩)
      (Fetch.resolved true 200 ⟨"https://cdn.example/u1"⟩) (Fetch.resolved true 200 ⟨"t1"⟩)
      1000 1001 [] ⟨["/uploads/1-2.png"], []⟩).code = 200 ∧
    (uploadHandler (some ⟨"/uploads/1-2.png", "image/png", 2048⟩)
      (Fetch.resolved true 200 ⟨"https://cdn.example/u1"⟩) (Fetch.resolved true 200 ⟨"t1"⟩)
      1000 1001 [] ⟨["/uploads/1-2.png"], []⟩).calls
      = [ProviderCall.upload "/uploads/1-2.png",
         ProviderCall.transcript "https://cdn.example/u1"] ∧
    (uploadHandler (some ⟨"/uploads/1-2.png", "image/png", 2048⟩)
      (Fetch.resolved true 200 ⟨"https://cdn.example/u1"⟩) (Fetch.resolved true 200 ⟨"t1"⟩)
      1000 1001 [] ⟨["/uploads/1-2.png"], []⟩).jobs
      = [("t1", ⟨"queued", "/uploads/1-2.png", 1000, none⟩)] := by
  refine ⟨by decide, ?_, ?_, ?_⟩ <;> decide

/-- C9, as the code has it. The server looks at the request only to see whether a
file is there: without a file it answers 400 before any provider call and leaves
the registry alone, and with a file its outcome does not depend on the content
type and its answer is 500 or 200, never 400. The check that the type begins with video/ is made by the page: a file
that fails it is not selected for upload and an error is shown. -/
theorem upload_type_checked_by_client_only :
    (∀ (r1 : Fetch UploadData) (r2 : Fetch TranscriptionData) (created sweepAt : Int)
        (jobs : Registry) (fs : FileSystem),
      uploadHandler none r1 r2 created sweepAt jobs fs
        = ⟨400, Body.error "No video file uploaded", jobs, fs, [], none⟩) ∧
    (∀ (path m1 m2 : String) (size : Nat) (r1 : Fetch UploadData)
        (r2 : Fetch TranscriptionData) (created sweepAt : Int) (jobs : Registry)
        (fs : FileSystem),
      uploadHandler (some ⟨path, m1, size⟩) r1 r2 created sweepAt jobs fs
        = uploadHandler (some ⟨path, m2, size⟩) r1 r2 created sweepAt jobs fs) ∧
    (∀ (reqFile : UploadedFile) (r1 : Fetch UploadData) (r2 : Fetch TranscriptionData)
        (created sweepAt : Int) (jobs : Registry) (fs : FileSystem),
      (uploadHandler (some reqFile) r1 r2 created sweepAt jobs fs).code = 500 ∨
      (uploadHandler (some reqFile) r1 r2 created sweepAt jobs fs).code = 200) ∧
    (∀ (c : Client) (file : ClientFile), List.isPrefixOf "video/".data file.type.data = false →
      (handleFileSelection c file).selectedFile = c.selectedFile ∧
      (handleFileSelection c file).errorDisplayed = true ∧
      (handleFileSelection c file).errorText = "Please select a valid video file") := by
  refine ⟨fun _ _ _ _ _ _ => rfl, fun _ _ _ _ _ _ _ _ _ _ => rfl, ?_, fun c file h => ?_⟩
  · intro reqFile r1 r2 created sweepAt jobs fs
    cases r1 with
    | failed message => exact Or.inl rfl
    | resolved ok status d =>
      cases ok with
      | false => exact Or.inl rfl
      | true =>
        cases r2 with
        | failed message => exact Or.inl rfl
        | resolved ok2 status2 d2 =>
          cases ok2 with
          | false => exact Or.inl rfl
          | true => exact Or.inr rfl
  · simp [handleFileSelection, h, showError]

/-- Witness of C9: the page refuses a file of type image/png. -/
theorem upload_type_checked_by_client_only_witness :
    List.isPrefixOf "video/".data "image/png".data = false ∧
    (handleFileSelection ⟨none, none, false, true, "", "", false, false, 0, "", [], 0⟩
      ⟨"cat.png", "image/png", 2048⟩).selectedFile = none :=
  ⟨by decide,
   (upload_type_checked_by_client_only.2.2.2
      ⟨none, none, false, true, "", "", false, false, 0, "", [], 0⟩
      ⟨"cat.png", "image/png", 2048⟩ (by decide)).1⟩

/-! ### Polling client -/

theorem poll_cons (c : Client) (r : Fetch StatusData) (rest : List (Fetch StatusData)) :
    poll c (r :: rest)
      = poll (if c.pollingInterval then checkTranscriptionStatus c r else c) rest := rfl

theorem poll_append (c : Client) (l1 l2 : List (Fetch StatusData)) :
    poll c (l1 ++ l2) = poll (poll c l1) l2 := by
  simp [poll, List.foldl_append]

theorem checkTranscriptionStatus_queued (c : Client) (x : Nat × Option String) :
    checkTranscriptionStatus c (okReply "queued" x)
      = { c with progressWidth := 40, widthLog := c.widthLog ++ [40],
                 progressText := "Queued for transcription..." } := by
  simp [checkTranscriptionStatus, okReply, updateProgress]

theorem checkTranscriptionStatus_processing (c : Client) (x : Nat × Option String) :
    checkTranscriptionStatus c (okReply "processing" x)
      = { c with progressWidth := 60, widthLog := c.widthLog ++ [60],
                 progressText := "Processing transcription..." } := by
  simp [checkTranscriptionStatus, okReply, updateProgress]

theorem checkTranscriptionStatus_completed (c : Client) (x : Nat × Option String) :
    checkTranscriptionStatus c (okReply "completed" x)
      = { c with pollingInterval := false, progressWidth := 100,
                 widthLog := c.widthLog ++ [100], progressText := "Transcription complete!",
                 transcriptFetches := c.transcriptFetches + 1 } := by
  simp [checkTranscriptionStatus, okReply, updateProgress]

theorem poll_queued (qs : List (Nat × Option String)) :
    ∀ c : Client, c.pollingInterval = true →
      (poll c (qs.map (okReply "queued"))).pollingInterval = true ∧
      (poll c (qs.map (okReply "queued"))).widthLog
        = c.widthLog ++ List.replicate qs.length 40 ∧
      (poll c (qs.map (okReply "queued"))).transcriptFetches = c.transcriptFetches := by
  induction qs with
  | nil => intro c h; exact ⟨h, by simp [poll], rfl⟩
  | cons x rest ih =>
    intro c h
    rw [List.map_cons, poll_cons, if_pos h]
    obtain ⟨h1, h2, h3⟩ := ih (checkTranscriptionStatus c (okReply "queued" x))
      (by rw [checkTranscriptionStatus_queued]; exact h)
    refine ⟨h1, ?_, ?_⟩
    · rw [h2, checkTranscriptionStatus_queued]
      simp [List.replicate_succ]
    · rw [h3, checkTranscriptionStatus_queued]

theorem poll_processing (ps : List (Nat × Option String)) :
    ∀ c : Client, c.pollingInterval = true →
      (poll c (ps.map (okReply "processing"))).pollingInterval = true ∧
      (poll c (ps.map (okReply "processing"))).widthLog
        = c.widthLog ++ List.replicate ps.length 60 ∧
      (poll c (ps.map (okReply "processing"))).transcriptFetches = c.transcriptFetches := by
  induction ps with
  | nil => intro c h; exact ⟨h, by simp [poll], rfl⟩
  | cons x rest ih =>
    intro c h
    rw [List.map_cons, poll_cons, if_pos h]
    obtain ⟨h1, h2, h3⟩ := ih (checkTranscriptionStatus c (okReply "processing" x))
      (by rw [checkTranscriptionStatus_processing]; exact h)
    refine ⟨h1, ?_, ?_⟩
    · rw [h2, checkTranscriptionStatus_processing]
      simp [List.replicate_succ]
    · rw [h3, checkTranscriptionStatus_processing]

theorem widths_sorted (q p : Nat) (last : List Nat) (hlast : last = [] ∨ last = [100]) :
    List.Sorted (· ≤ ·) (30 :: (List.replicate q 40 ++ List.replicate p 60 ++ last)) := by
  rcases hlast with h | h
  · subst h
    simp only [List.Sorted, List.append_nil, List.pairwise_cons,
      List.mem_append, List.mem_replicate, List.pairwise_append, List.pairwise_replicate]
    refine ⟨fun a h => by omega, by simp, by simp, fun a ha b hb => by omega⟩
  · subst h
    simp only [List.Sorted, List.pairwise_cons, List.mem_append, List.mem_replicate,
      List.pairwise_append, List.pairwise_replicate, List.mem_singleton]
    refine ⟨fun a h => by omega, ⟨by simp, by simp, fun a ha b hb => by omega⟩, by simp,
      fun a ha b hb => by omega⟩

/-- Counterexample to C10 as stated: after the job is created, the polls
processing then queued set the widths 60 then 40. -/
theorem progress_can_decrease :
    (poll (startTranscription ⟨none, none, false, false, "", "", false, false, 0, "", [], 0⟩
        (Fetch.resolved true 200 ⟨none, "t1"⟩))
      [statusReply "processing", statusReply "queued"]).widthLog = [30, 60, 40] := by
  decide

/-- C10, as the code has it. After the job is created (width 30), for every run
of successful polls made of queued replies, then processing replies, then
possibly one completed reply, the widths set are 40 for each queued, 60 for each
processing and 100 for completed, a non-decreasing sequence from 30 on; the timer
keeps running until completed, and on completed it is stopped, the width is 100
and `getTranscript` has been called once. -/
theorem progress_nondecreasing (c : Client) (code : Nat) (uploadData : ClientUploadData)
    (qs ps : List (Nat × Option String)) (completed : Option (Nat × Option String)) :
    (poll (startTranscription c (Fetch.resolved true code uploadData))
      (qs.map (okReply "queued") ++ ps.map (okReply "processing")
        ++ completed.toList.map (okReply "completed"))).widthLog
      = c.widthLog ++ 30 :: (List.replicate qs.length 40 ++ List.replicate ps.length 60
          ++ completed.toList.map (fun _ => 100)) ∧
    List.Sorted (· ≤ ·) (30 :: (List.replicate qs.length 40 ++ List.replicate ps.length 60
          ++ completed.toList.map (fun _ => 100))) ∧
    (poll (startTranscription c (Fetch.resolved true code uploadData))
      (qs.map (okReply "queued") ++ ps.map (okReply "processing")
        ++ completed.toList.map (okReply "completed"))).pollingInterval
      = completed.isNone ∧
    (∀ x, completed = some x →
      (poll (startTranscription c (Fetch.resolved true code uploadData))
        (qs.map (okReply "queued") ++ ps.map (okReply "processing")
          ++ [okReply "completed" x])).progressWidth = 100 ∧
      (poll (startTranscription c (Fetch.resolved true code uploadData))
        (qs.map (okReply "queued") ++ ps.map (okReply "processing")
          ++ [okReply "completed" x])).transcriptFetches = c.transcriptFetches + 1) := by
  have h0 : (startTranscription c (Fetch.resolved true code uploadData)).pollingInterval = true :=
    rfl
  obtain ⟨a1, a2, a3⟩ := poll_queued qs _ h0
  obtain ⟨b1, b2, b3⟩ := poll_processing ps _ a1
  have hlog : (startTranscription c (Fetch.resolved true code uploadData)).widthLog
      = c.widthLog ++ [30] := rfl
  have hfetch : (startTranscription c (Fetch.resolved true code uploadData)).transcriptFetches
      = c.transcriptFetches := rfl
  have hlast : ∀ (c2 : Client) (x : Nat × Option String), c2.pollingInterval = true →
      poll c2 [okReply "completed" x] = checkTranscriptionStatus c2 (okReply "completed" x) :=
    fun c2 x h => by rw [poll_cons, if_pos h]; rfl
  have hnil : ∀ c2 : Client, poll c2 [] = c2 := fun _ => rfl
  refine ⟨?_, widths_sorted _ _ _ (by cases completed <;> simp), ?_, ?_⟩
  · rw [poll_append, poll_append]
    cases completed with
    | none =>
      simp only [Option.toList, List.map_nil, List.append_nil]
      rw [hnil, b2, a2, hlog]
      simp
    | some x =>
      simp only [Option.toList, List.map_cons, List.map_nil]
      rw [hlast _ _ b1, checkTranscriptionStatus_completed]
      simp only
      rw [b2, a2, hlog]
      simp
  · rw [poll_append, poll_append]
    cases completed with
    | none =>
      simp only [Option.toList, List.map_nil]
      rw [hnil, b1]
      rfl
    | some x =>
      simp only [Option.toList, List.map_cons, List.map_nil]
      rw [hlast _ _ b1, checkTranscriptionStatus_completed]
      rfl
  · intro x _
    rw [poll_append, poll_append, hlast _ _ b1, checkTranscriptionStatus_completed]
    refine ⟨rfl, ?_⟩
    simp only
    rw [b3, a3, hfetch]

/-- Witness of C10 (scenario B): the polls queued, processing, completed set 40,
60, 100 and the third poll calls `getTranscript`. -/
theorem progress_nondecreasing_witness :
    (poll (startTranscription ⟨none, none, false, false, "", "", false, false, 0, "", [], 0⟩
        (Fetch.resolved true 200 ⟨none, "t1"⟩))
      [statusReply "queued", statusReply "processing", statusReply "completed"]).widthLog
      = [30, 40, 60, 100] ∧
    (poll (startTranscription ⟨none, none, false, false, "", "", false, false, 0, "", [], 0⟩
        (Fetch.resolved true 200 ⟨none, "t1"⟩))
      [statusReply "queued", statusReply "processing"]).transcriptFetches = 0 ∧
    (poll (startTranscription ⟨none, none, false, false, "", "", false, false, 0, "", [], 0⟩
        (Fetch.resolved true 200 ⟨none, "t1"⟩))
      [statusReply "queued", statusReply "processing", statusReply "completed"]).transcriptFetches
      = 1 :=
  ⟨(progress_nondecreasing ⟨none, none, false, false, "", "", false, false, 0, "", [], 0⟩ 200
      ⟨none, "t1"⟩ [(200, none)] [(200, none)] (some (200, none))).1,
   by decide,
   ((progress_nondecreasing ⟨none, none, false, false, "", "", false, false, 0, "", [], 0⟩ 200
      ⟨none, "t1"⟩ [(200, none)] [(200, none)] (some (200, none))).2.2.2 (200, none) rfl).2⟩

/-! ### The registry invariant is kept by every handler -/

theorem invariant_nil : Invariant [] :=
  ⟨List.nodup_nil, fun _ _ _ _ h => by simp [ownJob] at h⟩

theorem invariant_of_sublist {l1 l2 : Registry} (hs : List.Sublist l1 l2)
    (h : Invariant l2) : Invariant l1 := by
  have hnd1 := keys_nodup_of_sublist hs h.1
  refine ⟨hnd1, fun k1 k2 j1 j2 h1 h2 hp => ?_⟩
  exact h.2 k1 k2 j1 j2 (ownJob_of_mem h.1 (hs.subset (ownJob_mem h1)))
    (ownJob_of_mem h.1 (hs.subset (ownJob_mem h2))) hp

theorem invariant_cleanupOldFiles (now : Int) (jobs : Registry) (fs : FileSystem)
    (h : Invariant jobs) : Invariant (cleanupOldFiles now jobs fs).jobs := by
  rw [cleanupOldFiles_eq_sweepEntries now jobs fs h.1]
  exact invariant_of_sublist (sweepEntries_sublist _ _ _) h

theorem ownJob_replaceJob (jobs : Registry) (id k : String) (j new : Job)
    (hj : ownJob jobs id = some j) :
    ownJob (replaceJob jobs id new) k = if k = id then some new else ownJob jobs k := by
  by_cases hk : k = id
  · rw [if_pos hk, hk]
    exact ownJob_replaceJob_same jobs id j new hj
  · rw [if_neg hk]
    exact ownJob_replaceJob_other jobs id k new hk

theorem invariant_replaceJob (jobs : Registry) (id : String) (j new : Job)
    (hj : ownJob jobs id = some j) (h : Invariant jobs)
    (hfresh : ∀ k j2, k ≠ id → ownJob jobs k = some j2 → j2.filePath ≠ new.filePath) :
    Invariant (replaceJob jobs id new) := by
  refine ⟨by rw [keys_replaceJob]; exact h.1, fun k1 k2 j1 j2 h1 h2 hp => ?_⟩
  rw [ownJob_replaceJob jobs id k1 j new hj] at h1
  rw [ownJob_replaceJob jobs id k2 j new hj] at h2
  by_cases e1 : k1 = id <;> by_cases e2 : k2 = id
  · rw [e1, e2]
  · rw [if_pos e1] at h1
    rw [if_neg e2] at h2
    injection h1 with h1
    exact absurd (h1 ▸ hp).symm (hfresh k2 j2 e2 h2)
  · rw [if_neg e1] at h1
    rw [if_pos e2] at h2
    injection h2 with h2
    exact absurd (h2 ▸ hp) (hfresh k1 j1 e1 h1)
  · rw [if_neg e1] at h1
    rw [if_neg e2] at h2
    exact h.2 k1 k2 j1 j2 h1 h2 hp

theorem invariant_statusHandler (id : String) (r : Fetch StatusData) (jobs : Registry)
    (h : Invariant jobs) : Invariant (statusHandler id r jobs).jobs := by
  cases hj : ownJob jobs id with
  | none =>
    have hp : getProperty jobs id = Property.inherited ∨ getProperty jobs id = Property.undefined := by
      unfold getProperty
      rw [hj]
      by_cases hin : id ∈ objectPrototypeNames
      · exact Or.inl (if_pos hin)
      · exact Or.inr (if_neg hin)
    rcases hp with hp | hp
    · cases r with
      | failed message => simpa [statusHandler, hp] using h
      | resolved ok code d => cases ok <;> simpa [statusHandler, hp] using h
    · simpa [statusHandler, hp] using h
  | some j =>
    cases r with
    | failed message => rw [statusHandler_failed_job hj]; exact h
    | resolved ok code d =>
      cases ok with
      | false => rw [statusHandler_refused_job hj]; exact h
      | true =>
        rw [statusHandler_resolved_job hj]
        apply invariant_replaceJob jobs id j _ hj h
        intro k j2 hk hj2 hp
        have hpath : (recordStatus j d).filePath = j.filePath := by
          unfold recordStatus
          split <;> rfl
        rw [hpath] at hp
        exact hk (h.2 k id j2 j hj2 hj hp)

theorem invariant_assignJob (jobs : Registry) (id : String) (new : Job) (h : Invariant jobs)
    (hfresh : ∀ k j, ownJob jobs k = some j → j.filePath ≠ new.filePath) :
    Invariant (assignJob jobs id new) := by
  refine ⟨keys_assignJob_nodup jobs id new h.1, ?_⟩
  unfold assignJob
  by_cases hid : id = "__proto__"
  · rw [if_pos hid]; exact h.2
  · rw [if_neg hid]
    cases hj : ownJob jobs id with
    | some j =>
      exact (invariant_replaceJob jobs id j new hj h (fun k j2 _ h2 => hfresh k j2 h2)).2
    | none =>
      intro k1 k2 j1 j2 h1 h2 hp
      rw [ownJob_append_single] at h1 h2
      cases e1 : ownJob jobs k1 with
      | some a =>
        rw [e1] at h1
        injection h1 with h1
        cases e2 : ownJob jobs k2 with
        | some b =>
          rw [e2] at h2
          injection h2 with h2
          exact h.2 k1 k2 a b e1 e2 (h1 ▸ h2 ▸ hp)
        | none =>
          rw [e2] at h2
          by_cases hk : id = k2
          · rw [if_pos hk] at h2
            injection h2 with h2
            exact absurd (h1 ▸ h2 ▸ hp) (hfresh k1 a e1)
          · rw [if_neg hk] at h2
            exact absurd h2 (by simp)
      | none =>
        rw [e1] at h1
        by_cases hk : id = k1
        · rw [if_pos hk] at h1
          injection h1 with h1
          cases e2 : ownJob jobs k2 with
          | some b =>
            rw [e2] at h2
            injection h2 with h2
            exact absurd (h1 ▸ h2 ▸ hp).symm (hfresh k2 b e2)
          | none =>
            rw [e2] at h2
            by_cases hk2 : id = k2
            · exact hk.symm.trans hk2
            · rw [if_neg hk2] at h2
              exact absurd h2 (by simp)
        · rw [if_neg hk] at h1
          exact absurd h1 (by simp)

theorem invariant_uploadHandler (file : Option UploadedFile) (r1 : Fetch UploadData)
    (r2 : Fetch TranscriptionData) (created sweepAt : Int) (jobs : Registry) (fs : FileSystem)
    (h : Invariant jobs)
    (hfresh : ∀ reqFile, file = some reqFile →
      ∀ k j, ownJob jobs k = some j → j.filePath ≠ reqFile.path) :
    Invariant (uploadHandler file r1 r2 created sweepAt jobs fs).jobs := by
  cases file with
  | none => exact h
  | some reqFile =>
    cases r1 with
    | failed message => exact h
    | resolved ok status d =>
      cases ok with
      | false => exact h
      | true =>
        cases r2 with
        | failed message => exact h
        | resolved ok2 status2 d2 =>
          cases ok2 with
          | false => exact h
          | true =>
            exact invariant_cleanupOldFiles sweepAt _ fs
              (invariant_assignJob jobs d2.id _ h (hfresh reqFile rfl))

end Ryan
